import Mathlib

/-!
Verification development for the aws-ip-ranges-api repository.

The TypeScript service (src/aws-ip-ranges/ip-ranges.service.ts) and its REST
controller are shallowly embedded below.  JavaScript strings are Lean
strings; JavaScript numbers appearing in bit manipulation are modelled as
Nat with explicit reduction modulo 2 to the 32, matching the ToInt32 and
ToUint32 coercions performed by the JS bitwise operators; thrown exceptions
are modelled with Except.  Library string helpers (split, toUpperCase,
includes, parseInt, padStart, toString with radix 2) are given fuel-free
structural models so that all definitions evaluate inside the kernel.
-/

namespace AwsIpRanges

/-! ## JavaScript string and number primitives -/

/-- Model of String.prototype.split with a nonempty separator: splits the
character list at every non-overlapping occurrence of the separator, first
match taken, separators not included.  The fuel argument is always called
with the length of the list, so the fuel-exhausted branch is unreachable. -/
def jsSplitGo (sep : List Char) : Nat → List Char → List (List Char)
  | _, [] => [[]]
  | 0, l => [l]
  | fuel+1, c :: rest =>
    if sep ≠ [] ∧ sep.isPrefixOf (c :: rest) then
      [] :: jsSplitGo sep fuel (List.drop (sep.length - 1) rest)
    else
      match jsSplitGo sep fuel rest with
      | [] => [[c]]
      | g :: gs => (c :: g) :: gs

/-- Model of s.split(sep) for a nonempty separator string. -/
def jsSplit (s : String) (sep : String) : List String :=
  (jsSplitGo sep.data s.data.length s.data).map (fun l => String.mk l)

/-- Model of String.prototype.toUpperCase restricted to ASCII letters,
which is all the upstream dataset and the claims exercise. -/
def upperChar (c : Char) : Char :=
  if 'a' ≤ c ∧ c ≤ 'z' then Char.ofNat (c.toNat - 32) else c

/-- Model of s.toUpperCase(). -/
def jsUpper (s : String) : String := String.mk (s.data.map upperChar)

/-- Model of s.includes(c) for a single-character needle. -/
def jsIncludes (s : String) (c : Char) : Bool := s.data.contains c

/-- Model of parseInt(s, 10) for inputs without sign or leading whitespace:
the maximal leading run of decimal digits is parsed and none (JS NaN) is
returned when that run is empty. -/
def jsParseIntDec (s : String) : Option Nat :=
  let ds := s.data.takeWhile (fun c => c.isDigit)
  if ds.isEmpty then none
  else some (ds.foldl (fun a c => a * 10 + (c.toNat - 48)) 0)

def isHexDigitChar (c : Char) : Bool :=
  c.isDigit || ('a' ≤ c && c ≤ 'f') || ('A' ≤ c && c ≤ 'F')

def hexDigitVal (c : Char) : Nat :=
  if c.isDigit then c.toNat - 48
  else if 'a' ≤ c ∧ c ≤ 'f' then c.toNat - 97 + 10
  else c.toNat - 65 + 10

/-- Model of parseInt(s, 16) for inputs without sign, whitespace or 0x
marker: the maximal leading run of hex digits is parsed, none models NaN. -/
def jsParseHex (s : String) : Option Nat :=
  let ds := s.data.takeWhile isHexDigitChar
  if ds.isEmpty then none
  else some (ds.foldl (fun a c => a * 16 + hexDigitVal c) 0)

/-! ## Address arithmetic (isIpv4InCidr, ipv4ToNumber, service.ts 317-333) -/

/-- The mask ~(2 ** (32 - bits) - 1) computed by isIpv4InCidr, as the
unsigned 32-bit pattern the JS bitwise operators act on.  For bits between
0 and 32 the float arithmetic is exact and the complement has exactly the
top bits set; for NaN (missing or unparsable prefix length) and for bits
above 32 the float 2 ** (32 - bits) - 1 truncates to 0 under ToInt32 so the
mask is all ones.  (Prefix lengths beyond the float underflow threshold of
about 1100, where JS would again produce mask 0, are not modelled; no claim
involves them.) -/
def jsMaskOfBits : Option Nat → Nat
  | none => 2 ^ 32 - 1
  | some b => if b ≤ 32 then 2 ^ 32 - 2 ^ (32 - b) else 2 ^ 32 - 1

/-- Numeric core of isIpv4InCidr: (ipNum & mask) === (rangeNum & mask).
Both operands of === are produced by &, so comparing the unsigned patterns
is equivalent to comparing the signed 32-bit values JS compares. -/
def isIpv4InCidrNum (ipNum rangeNum : Nat) (bits : Option Nat) : Bool :=
  Nat.land ipNum (jsMaskOfBits bits) == Nat.land rangeNum (jsMaskOfBits bits)

/-- Model of ipv4ToNumber: split on dots, parseInt each part, then
((p0 << 24) | (p1 << 16) | (p2 << 8) | p3) >>> 0.  A missing part
(undefined) or unparsable part (NaN) becomes 0 under ToInt32, and every
shift result is reduced to its 32-bit pattern as the JS operators do. -/
def ipv4ToNumber (s : String) : Nat :=
  let parts := (jsSplit s ".").map jsParseIntDec
  let p : Nat → Nat := fun i => ((parts.getD i none).getD 0) % 2 ^ 32
  Nat.lor (Nat.lor (Nat.lor ((p 0 <<< 24) % 2 ^ 32) ((p 1 <<< 16) % 2 ^ 32))
      ((p 2 <<< 8) % 2 ^ 32)) (p 3)

/-- Model of isIpv4InCidr on raw strings: const [range, bits] =
cidr.split(sep); then the masked comparison of the two converted numbers. -/
def isIpv4InCidrStr (ip cidr : String) : Bool :=
  let parts := jsSplit cidr "/"
  isIpv4InCidrNum (ipv4ToNumber ip) (ipv4ToNumber (parts.getD 0 ""))
    (jsParseIntDec (parts.getD 1 ""))

/-! ## IPv6 arithmetic (expandIpv6, ipv6ToBinary, isIpv6InCidr, 338-378) -/

def bitChar (b : Bool) : Char := if b then '1' else '0'

/-- Digits of n.toString(2) for positive n, most significant first. -/
def binDigitsAux (n : Nat) : List Char :=
  if h : n = 0 then []
  else binDigitsAux (n / 2) ++ [bitChar (decide (n % 2 = 1))]
decreasing_by exact Nat.div_lt_self (Nat.pos_of_ne_zero h) (by decide)

/-- Model of n.toString(2): "0" for zero, otherwise the binary digits. -/
def binDigits (n : Nat) : List Char := if n = 0 then ['0'] else binDigitsAux n

/-- Model of l.padStart(w, zeroChar) on character lists. -/
def padStartZeros (w : Nat) (l : List Char) : List Char :=
  List.replicate (w - l.length) '0' ++ l

/-- One group of ipv6ToBinary: parseInt(hex, 16).toString(2).padStart(16).
For an unparsable group JS produces the NaN rendering padded to 16. -/
def jsBinString16 (g : Option Nat) : List Char :=
  match g with
  | none => padStartZeros 16 ['N', 'a', 'N']
  | some n => padStartZeros 16 (binDigits n)

/-- The joined binary string of ipv6ToBinary, over already-parsed groups.
The join and re-split on colons between expandIpv6 and ipv6ToBinary is the
identity because every padded group is nonempty and colon-free. -/
def ipv6BinaryOfGroups (gs : List (Option Nat)) : List Char :=
  (gs.map jsBinString16).flatten

/-- The final comparison of isIpv6InCidr:
ipBinary.substring(0, prefixBits) === rangeBinary.substring(0, prefixBits). -/
def isIpv6InCidrCore (ipGs rangeGs : List (Option Nat)) (n : Nat) : Bool :=
  (ipv6BinaryOfGroups ipGs).take n == (ipv6BinaryOfGroups rangeGs).take n

/-- Model of p.padStart(4, zeroChar) on strings. -/
def padStart4 (s : String) : String :=
  String.mk (List.replicate (4 - s.data.length) '0' ++ s.data)

/-- Model of expandIpv6.  With a double colon present, the string is split
on the double colon; parts[0] and parts[1] are split on single colons when
truthy (nonempty); Array(8 - left.length - right.length) raises RangeError
when its argument is negative, modelled as the error case; otherwise the
missing groups are zero-filled and everything is padded to width four. -/
def expandIpv6 (ip : String) : Except Unit (List String) :=
  if (jsSplit ip "::").length > 1 then
    let parts := jsSplit ip "::"
    let p0 := parts.getD 0 ""
    let p1 := parts.getD 1 ""
    let left := if p0 ≠ "" then jsSplit p0 ":" else []
    let right := if p1 ≠ "" then jsSplit p1 ":" else []
    if left.length + right.length > 8 then .error ()
    else
      let middle := List.replicate (8 - left.length - right.length) "0000"
      .ok ((left ++ middle ++ right).map padStart4)
  else
    .ok ((jsSplit ip ":").map padStart4)

/-- Model of isIpv6InCidr: const [range, bits] = cidr.split(sep);
prefixBits = parseInt(bits, 10); expand both sides, convert to binary and
compare the leading prefixBits characters (substring with NaN takes 0). -/
def isIpv6InCidr (ip cidr : String) : Except Unit Bool := do
  let parts := jsSplit cidr "/"
  let pb := jsParseIntDec (parts.getD 1 "")
  let ipExp ← expandIpv6 ip
  let rExp ← expandIpv6 (parts.getD 0 "")
  pure (isIpv6InCidrCore (ipExp.map jsParseHex) (rExp.map jsParseHex) (pb.getD 0))

/-! ## Data model (interfaces/ip-ranges.interface.ts)

Source field names ending in the raw word that the IPv4 records use for
their CIDR string are renamed to ip_pfx / ip_pfx6 / pfx for Lean surface
syntax reasons; every other field keeps its source name. -/

/-- One entry of prefixes (interface IPPrefix); ip_pfx is ip_prefix. -/
structure Ipv4Rec where
  ip_pfx : String
  region : String
  service : String
  network_border_group : String
deriving Repr, DecidableEq

/-- One entry of ipv6_prefixes (interface IPv6Prefix); ip_pfx6 is ipv6_prefix. -/
structure Ipv6Rec where
  ip_pfx6 : String
  region : String
  service : String
  network_border_group : String
deriving Repr, DecidableEq

/-- The fetched document (interface AWSIpRangesResponse).  The two list
fields are Option: none models a runtime document that lacks the field, as
the TypeScript type system does not check the body the HTTP client hands
over.  Iterating a missing prefixes field raises TypeError. -/
structure AWSIpRangesResponse where
  syncToken : String
  createDate : String
  prefixes : Option (List Ipv4Rec)
  ipv6_prefixes : Option (List Ipv6Rec)
deriving Repr, DecidableEq

/-- Per-service result (interface ServiceIpRanges); the nested count object
is flattened into countIpv4 / countIpv6. -/
structure ServiceIpRanges where
  service : String
  ipv4_prefixes : List String
  ipv6_prefixes : List String
  countIpv4 : Nat
  countIpv6 : Nat
deriving Repr, DecidableEq

structure ServicesListResponse where
  services : List String
  syncToken : String
  lastUpdated : String
deriving Repr, DecidableEq

structure RegionsListResponse where
  regions : List String
  syncToken : String
  lastUpdated : String
deriving Repr, DecidableEq

/-- The three mutable fields of IpRangesService.  The JS Map keeps keys in
insertion order and is modelled as an association list with unique keys;
the Date in lastUpdated is an abstract timestamp. -/
structure ServiceState where
  ipRangesData : Option AWSIpRangesResponse
  serviceIpRangesMap : List (String × ServiceIpRanges)
  lastUpdated : Option Nat
deriving Repr, DecidableEq

def initState : ServiceState :=
  { ipRangesData := none, serviceIpRangesMap := [], lastUpdated := none }

/-! ## groupByService (service.ts 76-124) -/

/-- Set.prototype.add on an insertion-ordered set. -/
def setAdd (l : List String) (x : String) : List String :=
  if x ∈ l then l else l ++ [x]

/-- The intermediate per-service record of groupByService. -/
structure SvcSets where
  ipv4 : List String
  ipv6 : List String
deriving Repr, DecidableEq

/-- One IPv4 iteration of groupByService: insert an empty entry when the
service key is absent, then add the prefix string to its ipv4 set.  The
in-place Set mutation is modelled by rewriting the (unique) entry. -/
def addIpv4 (m : List (String × SvcSets)) (svc pfx : String) :
    List (String × SvcSets) :=
  if m.any (fun e => e.1 == svc) then
    m.map (fun e => if e.1 == svc then (e.1, ⟨setAdd e.2.ipv4 pfx, e.2.ipv6⟩) else e)
  else
    m ++ [(svc, ⟨[pfx], []⟩)]

/-- One IPv6 iteration of groupByService. -/
def addIpv6 (m : List (String × SvcSets)) (svc pfx : String) :
    List (String × SvcSets) :=
  if m.any (fun e => e.1 == svc) then
    m.map (fun e => if e.1 == svc then (e.1, ⟨e.2.ipv4, setAdd e.2.ipv6 pfx⟩) else e)
  else
    m ++ [(svc, ⟨[], [pfx]⟩)]

/-- The serviceMap built by the two loops of groupByService. -/
def buildServiceMap (ps : List Ipv4Rec) (p6s : List Ipv6Rec) :
    List (String × SvcSets) :=
  p6s.foldl (fun m q => addIpv6 m q.service q.ip_pfx6)
    (ps.foldl (fun m p => addIpv4 m p.service p.ip_pfx) [])

/-- The conversion loop at the end of groupByService: Array.from of both
sets, with count recording the two lengths. -/
def mkServiceIpRanges (svc : String) (s : SvcSets) : ServiceIpRanges :=
  { service := svc, ipv4_prefixes := s.ipv4, ipv6_prefixes := s.ipv6,
    countIpv4 := s.ipv4.length, countIpv6 := s.ipv6.length }

/-- groupByService: early return when no data is cached; iterating the
prefixes field of a document that lacks it raises TypeError (error case)
before serviceIpRangesMap.clear() runs; the guarded ipv6_prefixes loop is
skipped when that field is missing. -/
def groupByService (st : ServiceState) : Except Unit ServiceState :=
  match st.ipRangesData with
  | none => .ok st
  | some doc =>
    match doc.prefixes with
    | none => .error ()
    | some ps =>
      let m := buildServiceMap ps (doc.ipv6_prefixes.getD [])
      .ok { st with serviceIpRangesMap := m.map (fun e => (e.1, mkServiceIpRanges e.1 e.2)) }

/-! ## fetchIpRanges (service.ts 48-71) -/

/-- One refresh cycle.  The argument res is the outcome of the awaited HTTP
get: a rejected promise (transport failure) is caught with nothing mutated;
on a fulfilled promise the handler first overwrites ipRangesData and
lastUpdated and only then runs groupByService, whose TypeError on an
unusable document is caught by the same catch block, after the overwrite.
The returned Bool is true when the cycle completed without logging an
error. -/
def fetchIpRanges (st : ServiceState) (res : Except Unit AWSIpRangesResponse)
    (now : Nat) : ServiceState × Bool :=
  match res with
  | .error _ => (st, false)
  | .ok doc =>
    let st1 := { st with ipRangesData := some doc, lastUpdated := some now }
    match groupByService st1 with
    | .ok st2 => (st2, true)
    | .error _ => (st1, false)

/-- The state after one refresh from the initial state. -/
def loadedState (doc : AWSIpRangesResponse) (now : Nat) : ServiceState :=
  (fetchIpRanges initState (.ok doc) now).1

/-! ## Read queries (service.ts 129-312) -/

/-- Abstract rendering of lastUpdated.toISOString(). -/
def isoString (t : Nat) : String := toString t

def syncTokenStr (st : ServiceState) : String :=
  (st.ipRangesData.map (fun d => d.syncToken)).getD ""

def lastUpdatedStr (st : ServiceState) : String :=
  (st.lastUpdated.map isoString).getD ""

/-- Insertion of a string into an ascending-sorted list. -/
def insertSorted (x : String) : List String → List String
  | [] => [x]
  | y :: ys => if x ≤ y then x :: y :: ys else y :: insertSorted x ys

/-- Array.prototype.sort with the default comparator on ASCII strings,
modelled as an insertion sort (ascending lexicographic order). -/
def sortStrings (l : List String) : List String :=
  l.foldr insertSorted []

/-- getServices: sorted key list of the service map plus metadata. -/
def getServices (st : ServiceState) : ServicesListResponse :=
  { services := sortStrings (st.serviceIpRangesMap.map (fun e => e.1)),
    syncToken := syncTokenStr st, lastUpdated := lastUpdatedStr st }

/-- getRegions: the region values of both record lists collected into an
insertion-ordered set and sorted.  Iterating a missing prefixes field
raises TypeError; the ipv6 loop is guarded. -/
def getRegions (st : ServiceState) : Except Unit RegionsListResponse :=
  match st.ipRangesData with
  | none => .ok { regions := [], syncToken := syncTokenStr st,
                  lastUpdated := lastUpdatedStr st }
  | some doc =>
    match doc.prefixes with
    | none => .error ()
    | some ps =>
      let s1 := ps.foldl (fun acc p => setAdd acc p.region) []
      let s2 := (doc.ipv6_prefixes.getD []).foldl (fun acc q => setAdd acc q.region) s1
      .ok { regions := sortStrings s2, syncToken := syncTokenStr st,
            lastUpdated := lastUpdatedStr st }

/-- The IPv4 filter loop of filterByServiceAndRegion: push the prefix of
every record whose uppercased service and region match the arguments
(upperRegion is jsUpper of the requested region). -/
def filterIpv4 (ps : List Ipv4Rec) (service upperRegion : String) : List String :=
  (ps.filter (fun p =>
    jsUpper p.service == service && jsUpper p.region == upperRegion)).map
      (fun p => p.ip_pfx)

/-- The IPv6 filter loop of filterByServiceAndRegion. -/
def filterIpv6 (p6s : List Ipv6Rec) (service upperRegion : String) : List String :=
  (p6s.filter (fun q =>
    jsUpper q.service == service && jsUpper q.region == upperRegion)).map
      (fun q => q.ip_pfx6)

/-- The body of filterByServiceAndRegion, given the record lists: null
when both filtered lists are empty, otherwise the result with counts. -/
def filterCore (ps : List Ipv4Rec) (p6s : List Ipv6Rec)
    (service region : String) : Option ServiceIpRanges :=
  if (filterIpv4 ps service (jsUpper region)).length == 0 &&
      (filterIpv6 p6s service (jsUpper region)).length == 0 then none
  else some { service := service,
              ipv4_prefixes := filterIpv4 ps service (jsUpper region),
              ipv6_prefixes := filterIpv6 p6s service (jsUpper region),
              countIpv4 := (filterIpv4 ps service (jsUpper region)).length,
              countIpv6 := (filterIpv6 p6s service (jsUpper region)).length }

/-- filterByServiceAndRegion (service.ts 187-233): null without data,
TypeError on a document lacking prefixes, otherwise the two filter loops. -/
def filterByServiceAndRegion (st : ServiceState) (service region : String) :
    Except Unit (Option ServiceIpRanges) :=
  match st.ipRangesData with
  | none => .ok none
  | some doc =>
    match doc.prefixes with
    | none => .error ()
    | some ps => .ok (filterCore ps (doc.ipv6_prefixes.getD []) service region)

/-- getServiceIpRanges (service.ts 166-182).  The region filter is entered
only when region is truthy (given and nonempty) and data is cached;
otherwise the first map entry whose uppercased key equals the uppercased
requested name is returned. -/
def getServiceIpRanges (st : ServiceState) (service : String)
    (region : Option String) : Except Unit (Option ServiceIpRanges) :=
  let upperService := jsUpper service
  if (region.getD "") != "" && st.ipRangesData.isSome then
    filterByServiceAndRegion st upperService (region.getD "")
  else
    .ok ((st.serviceIpRangesMap.find? (fun e => jsUpper e.1 == upperService)).map
      (fun e => e.2))

/-- A service entry with the service field stripped, as the rest spread in
getAllServiceIpRanges produces for the Record values. -/
structure ServiceRangesValue where
  ipv4_prefixes : List String
  ipv6_prefixes : List String
  countIpv4 : Nat
  countIpv6 : Nat
deriving Repr, DecidableEq

def dropService (r : ServiceIpRanges) : ServiceRangesValue :=
  { ipv4_prefixes := r.ipv4_prefixes, ipv6_prefixes := r.ipv6_prefixes,
    countIpv4 := r.countIpv4, countIpv6 := r.countIpv6 }

/-- Response of getAllServiceIpRanges; the Record keeps insertion order. -/
structure AllServicesIpRanges where
  syncToken : String
  lastUpdated : String
  services : List (String × ServiceRangesValue)
deriving Repr, DecidableEq

/-- getAllServiceIpRanges (service.ts 238-265).  With a truthy region and
cached data, every map key is filtered through filterByServiceAndRegion
(which can raise on an unusable document) and kept when nonempty;
otherwise all map entries are emitted unchanged. -/
def getAllServiceIpRanges (st : ServiceState) (region : Option String) :
    Except Unit AllServicesIpRanges := do
  let svcs ←
    if (region.getD "") != "" && st.ipRangesData.isSome then
      st.serviceIpRangesMap.foldlM (fun acc e => do
        let f ← filterByServiceAndRegion st (jsUpper e.1) (region.getD "")
        match f with
        | some fr =>
          if fr.countIpv4 > 0 || fr.countIpv6 > 0 then
            pure (acc ++ [(e.1, dropService fr)])
          else
            pure acc
        | none => pure acc) []
    else
      pure (st.serviceIpRangesMap.map (fun e => (e.1, dropService e.2)))
  pure { syncToken := syncTokenStr st, lastUpdated := lastUpdatedStr st,
         services := svcs }

/-! ## searchByIp (service.ts 270-312) -/

structure IpSearchMatch where
  service : String
  region : String
  pfx : String
  network_border_group : String
deriving Repr, DecidableEq

structure IpSearchResult where
  ip : String
  found : Bool
  matchList : List IpSearchMatch
deriving Repr, DecidableEq

def mkMatch4 (p : Ipv4Rec) : IpSearchMatch :=
  { service := p.service, region := p.region, pfx := p.ip_pfx,
    network_border_group := p.network_border_group }

def mkMatch6 (q : Ipv6Rec) : IpSearchMatch :=
  { service := q.service, region := q.region, pfx := q.ip_pfx6,
    network_border_group := q.network_border_group }

/-- searchByIp: empty result without data; the family is chosen by
ip.includes(colon); the IPv6 scan can raise through expandIpv6, the IPv4
scan raises when the prefixes field is missing from the cached document. -/
def searchByIp (st : ServiceState) (ip : String) : Except Unit IpSearchResult :=
  match st.ipRangesData with
  | none => .ok { ip := ip, found := false, matchList := [] }
  | some doc =>
    if jsIncludes ip ':' then do
      let ms ← (doc.ipv6_prefixes.getD []).foldlM (fun acc q => do
        let b ← isIpv6InCidr ip q.ip_pfx6
        pure (if b then acc ++ [mkMatch6 q] else acc)) []
      pure { ip := ip, found := decide (0 < ms.length), matchList := ms }
    else
      match doc.prefixes with
      | none => .error ()
      | some ps =>
        let ms := ps.foldl (fun acc p =>
          if isIpv4InCidrStr ip p.ip_pfx then acc ++ [mkMatch4 p] else acc) []
        .ok { ip := ip, found := decide (0 < ms.length), matchList := ms }

/-- isDataLoaded (service.ts 383-385). -/
def isDataLoaded (st : ServiceState) : Bool := st.ipRangesData.isSome

/-! ## Controller (ip-ranges.controller.ts) -/

/-- Errors the controller surfaces: ServiceUnavailableException from
ensureDataLoaded, NotFoundException for a null service lookup, and the
internal case for an uncaught TypeError from the service layer. -/
inductive CtrlError where
  | serviceUnavailable
  | notFound
  | internal
deriving Repr, DecidableEq

def ctrlGetServices (st : ServiceState) : Except CtrlError ServicesListResponse :=
  if isDataLoaded st then .ok (getServices st) else .error .serviceUnavailable

def ctrlGetRegions (st : ServiceState) : Except CtrlError RegionsListResponse :=
  if isDataLoaded st then (getRegions st).mapError (fun _ => .internal)
  else .error .serviceUnavailable

def ctrlGetAllIpRanges (st : ServiceState) (region : Option String) :
    Except CtrlError AllServicesIpRanges :=
  if isDataLoaded st then
    (getAllServiceIpRanges st region).mapError (fun _ => .internal)
  else .error .serviceUnavailable

def ctrlGetServiceIpRanges (st : ServiceState) (service : String)
    (region : Option String) : Except CtrlError ServiceIpRanges :=
  if isDataLoaded st then
    match getServiceIpRanges st service region with
    | .error _ => .error .internal
    | .ok none => .error .notFound
    | .ok (some r) => .ok r
  else .error .serviceUnavailable

/-! ## Refresh scheduler (handleCron, service.ts 39-43)

handleCron consults no state before awaiting fetchIpRanges: the service
object has no busy flag and the cron decorator applies no overlap policy,
so a trigger that fires while an earlier fetch is still awaiting its HTTP
response starts one more refresh.  The in-flight count is the number of
fetchIpRanges invocations whose awaited response has not yet resolved. -/
def cronTrigger (inFlight : Nat) : Nat := inFlight + 1

/-- Resolution of one awaited fetch ends that refresh invocation. -/
def fetchSettled (inFlight : Nat) : Nat := inFlight - 1

/-! ## Specification-side definitions used only in theorem statements -/

/-- The value of an IPv6 address as a 128-bit integer, from its eight
16-bit groups, most significant first. -/
def groupsVal : List Nat → Nat
  | [] => 0
  | g :: rest => g * 2 ^ (16 * rest.length) + groupsVal rest

/-- The w-bit big-endian binary rendering of n as characters. -/
def bitsBE (w n : Nat) : List Char :=
  (List.range w).map (fun i => bitChar (n.testBit (w - 1 - i)))

/-- Keys of an association list. -/
def keysOf {α : Type} (m : List (String × α)) : List String :=
  m.map (fun e => e.1)

/-- The de-duplication contract of one grouped IPv4 set: no duplicates,
source order preserved, and exactly the prefixes of the records of that
service. -/
def entryProp4 (ps : List Ipv4Rec) (k : String) (l : List String) : Prop :=
  l.Nodup ∧ l.Sublist ((ps.filter (fun p => p.service == k)).map (fun p => p.ip_pfx))
    ∧ ∀ x, x ∈ l ↔ x ∈ (ps.filter (fun p => p.service == k)).map (fun p => p.ip_pfx)

/-- The same contract for one grouped IPv6 set. -/
def entryProp6 (p6s : List Ipv6Rec) (k : String) (l : List String) : Prop :=
  l.Nodup ∧ l.Sublist ((p6s.filter (fun q => q.service == k)).map (fun q => q.ip_pfx6))
    ∧ ∀ x, x ∈ l ↔ x ∈ (p6s.filter (fun q => q.service == k)).map (fun q => q.ip_pfx6)

/-- Invariant of the first (IPv4) loop of groupByService after the records
in done have been processed. -/
def Inv4 (done : List Ipv4Rec) (m : List (String × SvcSets)) : Prop :=
  (keysOf m).Nodup
    ∧ (∀ e ∈ m, ∃ p ∈ done, p.service = e.1)
    ∧ (∀ p ∈ done, p.service ∈ keysOf m)
    ∧ (∀ e ∈ m, entryProp4 done e.1 e.2.ipv4 ∧ e.2.ipv6 = [])

/-- Invariant of the second (IPv6) loop of groupByService: the IPv4 sets
are final with respect to ps and the IPv6 sets reflect done6. -/
def Inv6 (ps : List Ipv4Rec) (done6 : List Ipv6Rec)
    (m : List (String × SvcSets)) : Prop :=
  (keysOf m).Nodup
    ∧ (∀ e ∈ m, (∃ p ∈ ps, p.service = e.1) ∨ (∃ q ∈ done6, q.service = e.1))
    ∧ (∀ p ∈ ps, p.service ∈ keysOf m)
    ∧ (∀ q ∈ done6, q.service ∈ keysOf m)
    ∧ (∀ e ∈ m, entryProp4 ps e.1 e.2.ipv4 ∧ entryProp6 done6 e.1 e.2.ipv6)

/-- The Record built by the region branch of getAllServiceIpRanges, as a
pure filterMap over the service map (used to state what the effectful fold
computes when the cached document is usable). -/
def regionFilterEntries (ps : List Ipv4Rec) (p6s : List Ipv6Rec)
    (m : List (String × ServiceIpRanges)) (r : String) :
    List (String × ServiceRangesValue) :=
  m.filterMap (fun e =>
    match filterCore ps p6s (jsUpper e.1) r with
    | some fr =>
      if fr.countIpv4 > 0 || fr.countIpv6 > 0 then some (e.1, dropService fr) else none
    | none => none)

/-! ## General helper lemmas -/

lemma foldl_push_filter {α β : Type} (cond : α → Bool) (f : α → β) :
    ∀ (l : List α) (acc : List β),
      l.foldl (fun a x => if cond x then a ++ [f x] else a) acc
        = acc ++ (l.filter cond).map f := by
  intro l
  induction l with
  | nil => intro acc; simp
  | cons x xs ih =>
    intro acc
    cases hc : cond x <;> simp [hc, ih, List.filter_cons]

lemma setAdd_mem (l : List String) (x y : String) :
    y ∈ setAdd l x ↔ y ∈ l ∨ y = x := by
  unfold setAdd
  by_cases h : x ∈ l
  · simp only [if_pos h]
    constructor
    · exact fun hy => Or.inl hy
    · rintro (hy | rfl) <;> assumption
  · simp [if_neg h]

lemma setAdd_nodup {l : List String} (h : l.Nodup) (x : String) :
    (setAdd l x).Nodup := by
  unfold setAdd
  by_cases hx : x ∈ l
  · simpa [if_pos hx]
  · simp [if_neg hx, List.nodup_append, h, hx]

lemma setAdd_sublist {l L : List String} (h : l.Sublist L) (x : String) :
    (setAdd l x).Sublist (L ++ [x]) := by
  unfold setAdd
  by_cases hx : x ∈ l
  · simp only [if_pos hx]
    exact h.trans (List.sublist_append_left L [x])
  · simp only [if_neg hx]
    exact h.append (List.Sublist.refl [x])

/-- The cached state after a successful refresh of a usable document. -/
lemma loadedState_eq (doc : AWSIpRangesResponse) (now : Nat)
    (ps : List Ipv4Rec) (hp : doc.prefixes = some ps) :
    loadedState doc now =
      { ipRangesData := some doc,
        serviceIpRangesMap :=
          (buildServiceMap ps (doc.ipv6_prefixes.getD [])).map
            (fun e => (e.1, mkServiceIpRanges e.1 e.2)),
        lastUpdated := some now } := by
  unfold loadedState fetchIpRanges groupByService
  simp [hp, initState]

lemma except_bind_ok {ε α β : Type} (a : α) (f : α → Except ε β) :
    (Except.ok a >>= f) = f a := rfl

/-- The cached state after a refresh whose document lacks the prefixes
list: the data is overwritten but the map build aborts. -/
lemma loadedState_bad_eq (doc : AWSIpRangesResponse) (now : Nat)
    (hp : doc.prefixes = none) :
    loadedState doc now =
      { ipRangesData := some doc, serviceIpRangesMap := [],
        lastUpdated := some now } := by
  unfold loadedState fetchIpRanges groupByService
  simp [hp, initState]

lemma except_pure_bind {ε α β : Type} (a : α) (f : α → Except ε β) :
    ((pure a : Except ε α) >>= f) = f a := rfl

lemma filterCore_counts {ps : List Ipv4Rec} {p6s : List Ipv6Rec}
    {s r : String} {fr : ServiceIpRanges}
    (h : filterCore ps p6s s r = some fr) :
    fr.countIpv4 = fr.ipv4_prefixes.length ∧
      fr.countIpv6 = fr.ipv6_prefixes.length := by
  unfold filterCore at h
  split at h
  · exact absurd h (by simp)
  · cases h
    exact ⟨rfl, rfl⟩

lemma loadedState_map_counts (doc : AWSIpRangesResponse) (now : Nat) :
    ∀ kv ∈ (loadedState doc now).serviceIpRangesMap,
      kv.2.countIpv4 = kv.2.ipv4_prefixes.length ∧
        kv.2.countIpv6 = kv.2.ipv6_prefixes.length := by
  intro kv hkv
  cases hp : doc.prefixes with
  | none =>
    rw [loadedState_bad_eq doc now hp] at hkv
    exact absurd hkv (by simp)
  | some ps =>
    rw [loadedState_eq doc now ps hp] at hkv
    simp only [List.mem_map] at hkv
    obtain ⟨e, _, rfl⟩ := hkv
    exact ⟨rfl, rfl⟩

/-- The effectful fold of the region branch of getAllServiceIpRanges
computes the pure filterMap when the cached document is usable. -/
lemma getAll_fold_eq (st : ServiceState) (doc : AWSIpRangesResponse)
    (ps : List Ipv4Rec) (hd : st.ipRangesData = some doc)
    (hp : doc.prefixes = some ps) (r : String) :
    ∀ (m : List (String × ServiceIpRanges)) (acc : List (String × ServiceRangesValue)),
      (m.foldlM (fun acc e => do
          let f ← filterByServiceAndRegion st (jsUpper e.1) r
          match f with
          | some fr =>
            if fr.countIpv4 > 0 || fr.countIpv6 > 0 then
              pure (acc ++ [(e.1, dropService fr)])
            else
              pure acc
          | none => pure acc) acc : Except Unit (List (String × ServiceRangesValue)))
        = .ok (acc ++ regionFilterEntries ps (doc.ipv6_prefixes.getD []) m r) := by
  intro m
  induction m with
  | nil =>
    intro acc
    simp [regionFilterEntries]
    rfl
  | cons e es ih =>
    intro acc
    have hf : filterByServiceAndRegion st (jsUpper e.1) r =
        .ok (filterCore ps (doc.ipv6_prefixes.getD []) (jsUpper e.1) r) := by
      simp [filterByServiceAndRegion, hd, hp]
    rw [List.foldlM_cons, hf, except_bind_ok]
    cases hfc : filterCore ps (doc.ipv6_prefixes.getD []) (jsUpper e.1) r with
    | none =>
      simp only [hfc, except_pure_bind]
      rw [ih acc]
      simp [regionFilterEntries, List.filterMap_cons, hfc]
    | some fr =>
      by_cases hc : (fr.countIpv4 > 0 || fr.countIpv6 > 0) = true
      · simp only [hfc, hc, if_true, except_pure_bind]
        rw [ih (acc ++ [(e.1, dropService fr)])]
        have hc2 : 0 < fr.countIpv4 ∨ 0 < fr.countIpv6 := by simpa using hc
        simp [regionFilterEntries, List.filterMap_cons, hfc, hc2]
      · simp only [hfc, if_neg hc, except_pure_bind]
        rw [ih acc]
        simp only [regionFilterEntries, List.filterMap_cons, hfc, if_neg hc]

/-- The region branch of getAllServiceIpRanges on a usable document. -/
lemma getAll_region_eq (st : ServiceState) (doc : AWSIpRangesResponse)
    (ps : List Ipv4Rec) (hd : st.ipRangesData = some doc)
    (hp : doc.prefixes = some ps) (r : String) (hr : r ≠ "") :
    getAllServiceIpRanges st (some r) =
      .ok { syncToken := syncTokenStr st, lastUpdated := lastUpdatedStr st,
            services := regionFilterEntries ps (doc.ipv6_prefixes.getD [])
              st.serviceIpRangesMap r } := by
  unfold getAllServiceIpRanges
  have hsome : st.ipRangesData.isSome = true := by rw [hd]; rfl
  simp only [Option.getD_some]
  have hcond : ((r != "") && st.ipRangesData.isSome) = true := by
    simp [hsome, hr]
  rw [hcond]
  simp only [if_true]
  rw [getAll_fold_eq st doc ps hd hp r st.serviceIpRangesMap []]
  rfl

/-- Without a region argument every map entry is returned unchanged. -/
lemma getAll_none_eq (st : ServiceState) :
    getAllServiceIpRanges st none =
      .ok { syncToken := syncTokenStr st, lastUpdated := lastUpdatedStr st,
            services := st.serviceIpRangesMap.map (fun e => (e.1, dropService e.2)) } := rfl

/-- An empty-string region argument is falsy and behaves as no region. -/
lemma getAll_empty_eq (st : ServiceState) :
    getAllServiceIpRanges st (some "") = getAllServiceIpRanges st none := rfl

/-! ## Claim C2 -/

/-- C2 counterexample: after a successful refresh, a cycle whose fetched
document lacks the prefixes list fails, yet the cached state is not the
pre-cycle state: ipRangesData now holds the unusable document.  The claim
that every failed refresh leaves all cached state exactly as it was is
false on the code. -/
theorem C2_counterexample :
    (fetchIpRanges
        (loadedState ⟨"t1", "d1", some [⟨"10.0.0.0/8", "us-east-1", "EC2", "g"⟩], some []⟩ 1)
        (.ok ⟨"t2", "d2", none, none⟩) 2).2 = false ∧
    (fetchIpRanges
        (loadedState ⟨"t1", "d1", some [⟨"10.0.0.0/8", "us-east-1", "EC2", "g"⟩], some []⟩ 1)
        (.ok ⟨"t2", "d2", none, none⟩) 2).1.ipRangesData ≠
      (loadedState ⟨"t1", "d1", some [⟨"10.0.0.0/8", "us-east-1", "EC2", "g"⟩], some []⟩ 1).ipRangesData := by
  decide

/-- C2 amended: a transport-failed refresh leaves the whole cached state
unchanged; a refresh whose fetched document lacks the prefixes list aborts
with an error only after ipRangesData and lastUpdated have been
overwritten, while serviceIpRangesMap keeps the previous snapshot, so
subsequent map-based queries serve stale data against a new document. -/
theorem C2_failed_refresh (st : ServiceState) (now : Nat) :
    fetchIpRanges st (.error ()) now = (st, false) ∧
    (∀ doc : AWSIpRangesResponse, doc.prefixes = none →
      fetchIpRanges st (.ok doc) now =
        ({ ipRangesData := some doc, serviceIpRangesMap := st.serviceIpRangesMap,
           lastUpdated := some now }, false)) := by
  constructor
  · rfl
  · intro doc hdoc
    unfold fetchIpRanges groupByService
    simp [hdoc]

/-- Closed instance of C2_failed_refresh. -/
theorem C2_failed_refresh_witness :
    fetchIpRanges initState (.error ()) 0 = (initState, false) ∧
    fetchIpRanges initState (.ok ⟨"t", "d", none, none⟩) 0 =
      ({ ipRangesData := some ⟨"t", "d", none, none⟩, serviceIpRangesMap := [],
         lastUpdated := some 0 }, false) :=
  ⟨(C2_failed_refresh initState 0).1,
   (C2_failed_refresh initState 0).2 ⟨"t", "d", none, none⟩ rfl⟩

lemma except_bind_error {ε α β : Type} (e : ε) (f : α → Except ε β) :
    (Except.error e >>= f) = Except.error e := rfl

/-- The IPv4 branch of searchByIp: the push loop computes the filtered,
mapped record list, with no error path. -/
lemma searchByIp_v4_eq (st : ServiceState) (doc : AWSIpRangesResponse)
    (ps : List Ipv4Rec) (ip : String)
    (hd : st.ipRangesData = some doc) (hp : doc.prefixes = some ps)
    (hip : jsIncludes ip ':' = false) :
    searchByIp st ip =
      .ok { ip := ip,
            found := decide (0 < ((ps.filter (fun p => isIpv4InCidrStr ip p.ip_pfx)).map mkMatch4).length),
            matchList := (ps.filter (fun p => isIpv4InCidrStr ip p.ip_pfx)).map mkMatch4 } := by
  unfold searchByIp
  rw [hd]
  simp only [hip, Bool.false_eq_true, if_false, hp]
  rw [foldl_push_filter (fun p => isIpv4InCidrStr ip p.ip_pfx) mkMatch4 ps []]
  rfl

/-- Inversion of the IPv6 scan accumulation of searchByIp: every produced
match comes from a record of the scanned list. -/
lemma search6_fold_mem (ip : String) : ∀ (l : List Ipv6Rec)
    (acc ms : List IpSearchMatch),
    (l.foldlM (fun acc q => do
        let b ← isIpv6InCidr ip q.ip_pfx6
        pure (if b then acc ++ [mkMatch6 q] else acc)) acc
      : Except Unit (List IpSearchMatch)) = .ok ms →
    ∀ m ∈ ms, m ∈ acc ∨ ∃ q ∈ l, m = mkMatch6 q := by
  intro l
  induction l with
  | nil =>
    intro acc ms h m hm
    rw [List.foldlM_nil] at h
    cases h
    exact Or.inl hm
  | cons q rest ih =>
    intro acc ms h m hm
    rw [List.foldlM_cons] at h
    cases hb : isIpv6InCidr ip q.ip_pfx6 with
    | error err =>
      rw [hb] at h
      exact Except.noConfusion h
    | ok b =>
      rw [hb, except_bind_ok, except_pure_bind] at h
      cases b with
      | true =>
        rw [if_pos rfl] at h
        have hres := ih (acc ++ [mkMatch6 q]) ms h m hm
        cases hres with
        | inl hin =>
          rw [List.mem_append] at hin
          cases hin with
          | inl h1 => exact Or.inl h1
          | inr h2 =>
            rw [List.mem_singleton] at h2
            exact Or.inr ⟨q, List.mem_cons_self q rest, h2⟩
        | inr hex =>
          obtain ⟨q2, hq2, hm2⟩ := hex
          exact Or.inr ⟨q2, List.mem_cons_of_mem q hq2, hm2⟩
      | false =>
        rw [if_neg (by simp)] at h
        have hres := ih acc ms h m hm
        cases hres with
        | inl hin => exact Or.inl hin
        | inr hex =>
          obtain ⟨q2, hq2, hm2⟩ := hex
          exact Or.inr ⟨q2, List.mem_cons_of_mem q hq2, hm2⟩

/-- Provenance of the matches of the IPv6 branch of searchByIp. -/
lemma searchByIp_v6_matches (st : ServiceState) (doc : AWSIpRangesResponse)
    (ip : String) (res : IpSearchResult)
    (hd : st.ipRangesData = some doc) (hip : jsIncludes ip ':' = true)
    (hs : searchByIp st ip = .ok res) :
    ∀ m ∈ res.matchList, ∃ q ∈ doc.ipv6_prefixes.getD [], m = mkMatch6 q := by
  unfold searchByIp at hs
  rw [hd] at hs
  simp only [hip, if_true] at hs
  cases hms : ((doc.ipv6_prefixes.getD []).foldlM (fun acc q => do
      let b ← isIpv6InCidr ip q.ip_pfx6
      pure (if b then acc ++ [mkMatch6 q] else acc)) []
    : Except Unit (List IpSearchMatch)) with
  | error err =>
    rw [hms] at hs
    exact Except.noConfusion hs
  | ok ms =>
    rw [hms, except_bind_ok] at hs
    cases hs
    intro m hm
    have hres := search6_fold_mem ip (doc.ipv6_prefixes.getD []) [] ms hms m hm
    cases hres with
    | inl hin => exact absurd hin (List.not_mem_nil m)
    | inr hex => exact hex

/-! ## Claim C3 -/

/-- C3 counterexample: the input abc is not a valid IPv4 or IPv6 literal,
yet searchByIp returns a successful match result computed from it (the
unparsable parts coerce to 0 and 0.0.0.0 lies in 0.0.0.0/8) instead of
failing with a malformed-address error. -/
theorem C3_counterexample :
    searchByIp (loadedState ⟨"s", "", some [⟨"0.0.0.0/8", "r1", "S1", "g"⟩], some []⟩ 1) "abc"
      = .ok ⟨"abc", true, [⟨"S1", "r1", "0.0.0.0/8", "g"⟩]⟩ := by
  rfl

/-- C3 amended: searchByIp performs no address validation.  Every input
without a colon is routed to the IPv4 scan, where ipv4ToNumber coerces
missing or non-numeric parts to 0, and the caller receives a match result
computed from that coerced number; no malformed-address error exists. -/
theorem C3_no_validation (st : ServiceState) (doc : AWSIpRangesResponse)
    (ps : List Ipv4Rec) (ip : String)
    (hd : st.ipRangesData = some doc) (hp : doc.prefixes = some ps)
    (hip : jsIncludes ip ':' = false) :
    searchByIp st ip =
      .ok { ip := ip,
            found := decide (0 < ((ps.filter (fun p => isIpv4InCidrStr ip p.ip_pfx)).map mkMatch4).length),
            matchList := (ps.filter (fun p => isIpv4InCidrStr ip p.ip_pfx)).map mkMatch4 } :=
  searchByIp_v4_eq st doc ps ip hd hp hip

/-- Closed instance of C3_no_validation at the malformed input abc. -/
theorem C3_no_validation_witness :
    searchByIp (loadedState ⟨"s", "", some [⟨"0.0.0.0/8", "r1", "S1", "g"⟩], some []⟩ 1) "abc"
      = .ok { ip := "abc",
              found := decide (0 < ((([Ipv4Rec.mk "0.0.0.0/8" "r1" "S1" "g"]).filter
                  (fun (p : Ipv4Rec) => isIpv4InCidrStr "abc" p.ip_pfx)).map mkMatch4).length),
              matchList := (([Ipv4Rec.mk "0.0.0.0/8" "r1" "S1" "g"]).filter
                  (fun (p : Ipv4Rec) => isIpv4InCidrStr "abc" p.ip_pfx)).map mkMatch4 } :=
  C3_no_validation
    (loadedState ⟨"s", "", some [⟨"0.0.0.0/8", "r1", "S1", "g"⟩], some []⟩ 1)
    ⟨"s", "", some [⟨"0.0.0.0/8", "r1", "S1", "g"⟩], some []⟩
    [⟨"0.0.0.0/8", "r1", "S1", "g"⟩] "abc" (by decide) rfl (by decide)

/-! ## Claim C7 -/

/-- C7 counterexample: a scheduled trigger that fires while one refresh is
already in flight is not a no-op: it starts a second concurrent refresh,
because handleCron awaits fetchIpRanges unconditionally and neither the
service nor the cron decorator tracks a busy state. -/
theorem C7_counterexample : cronTrigger 1 ≠ 1 := by decide

/-- C7 amended: every scheduled trigger starts one more refresh regardless
of how many are already in flight; the code performs no coalescing and a
late trigger is never a no-op. -/
theorem C7_no_coalescing (n : Nat) : cronTrigger n = n + 1 ∧ cronTrigger n ≠ n :=
  ⟨rfl, Nat.succ_ne_self n⟩

/-! ## Claim C9 -/

/-- C9 counterexample: a refresh cycle that fails (its document lacks the
prefixes list, the cycle logs an error and builds no index) nevertheless
flips isDataLoaded to true, because the data was assigned before the
failure; so isDataLoaded is not false until the first successful refresh. -/
theorem C9_counterexample :
    (fetchIpRanges initState (.ok ⟨"t2", "d2", none, none⟩) 1).2 = false ∧
    isDataLoaded (fetchIpRanges initState (.ok ⟨"t2", "d2", none, none⟩) 1).1 = true := by
  decide

/-- C9 amended: isDataLoaded is false initially and stays false across
transport-failed refreshes (it becomes true as soon as any fetched
document is assigned, even by a cycle that then fails); while it is false
every controller query returns ServiceUnavailable; after a successful
refresh whose document carries zero records, isDataLoaded is true and the
queries return empty lists, an unknown-service NotFound, and an empty
search result rather than ServiceUnavailable. -/
theorem C9_loaded_gate (st : ServiceState) :
    isDataLoaded initState = false ∧
    (∀ now, fetchIpRanges st (.error ()) now = (st, false)) ∧
    (isDataLoaded st = false →
      ctrlGetServices st = .error .serviceUnavailable ∧
      ctrlGetRegions st = .error .serviceUnavailable ∧
      (∀ rg, ctrlGetAllIpRanges st rg = .error .serviceUnavailable) ∧
      (∀ name rg, ctrlGetServiceIpRanges st name rg = .error .serviceUnavailable)) ∧
    (∀ tok cd now ip name rg,
      isDataLoaded (fetchIpRanges st (.ok ⟨tok, cd, some [], some []⟩) now).1 = true ∧
      (ctrlGetServices (fetchIpRanges st (.ok ⟨tok, cd, some [], some []⟩) now).1).map
          (fun r => r.services) = .ok [] ∧
      (ctrlGetAllIpRanges (fetchIpRanges st (.ok ⟨tok, cd, some [], some []⟩) now).1 rg).map
          (fun r => r.services) = .ok [] ∧
      ctrlGetServiceIpRanges (fetchIpRanges st (.ok ⟨tok, cd, some [], some []⟩) now).1 name rg
          = .error .notFound ∧
      searchByIp (fetchIpRanges st (.ok ⟨tok, cd, some [], some []⟩) now).1 ip
          = .ok ⟨ip, false, []⟩) := by
  refine ⟨rfl, fun now => rfl, ?_, ?_⟩
  · intro hnl
    refine ⟨?_, ?_, fun rg => ?_, fun name rg => ?_⟩ <;>
      simp [ctrlGetServices, ctrlGetRegions, ctrlGetAllIpRanges, ctrlGetServiceIpRanges, hnl]
  · intro tok cd now ip name rg
    have hst : (fetchIpRanges st (.ok ⟨tok, cd, some [], some []⟩) now).1 =
        { ipRangesData := some ⟨tok, cd, some [], some []⟩,
          serviceIpRangesMap := [], lastUpdated := some now } := by
      unfold fetchIpRanges groupByService
      simp [buildServiceMap]
    rw [hst]
    refine ⟨rfl, ?_, ?_, ?_, ?_⟩
    · unfold ctrlGetServices getServices
      simp [isDataLoaded, sortStrings, Except.map]
    · cases rg with
      | none => rfl
      | some r =>
        by_cases hr : r = ""
        · subst hr; rfl
        · unfold ctrlGetAllIpRanges getAllServiceIpRanges
          simp [isDataLoaded, hr, Except.map, Except.mapError] <;> rfl
    · cases rg with
      | none => rfl
      | some r =>
        by_cases hr : r = ""
        · subst hr; rfl
        · unfold ctrlGetServiceIpRanges getServiceIpRanges filterByServiceAndRegion
          simp [isDataLoaded, hr, filterCore, filterIpv4, filterIpv6]
    · by_cases hc : jsIncludes ip ':'
      · unfold searchByIp
        simp [hc] <;> rfl
      · unfold searchByIp
        simp [hc] <;> rfl

/-- Closed instance of the gating clause of C9_loaded_gate. -/
theorem C9_loaded_gate_witness :
    ctrlGetServices initState = .error .serviceUnavailable ∧
    ctrlGetRegions initState = .error .serviceUnavailable ∧
    (∀ rg, ctrlGetAllIpRanges initState rg = .error .serviceUnavailable) ∧
    (∀ name rg, ctrlGetServiceIpRanges initState name rg = .error .serviceUnavailable) :=
  (C9_loaded_gate initState).2.2.1 rfl

/-! ## Claim C10 -/

/-- C10: in every per-service value a public query returns, whether built
by groupByService or by the region filter, the count fields equal the
lengths of the corresponding prefix lists. -/
theorem C10_counts_match_lengths (doc : AWSIpRangesResponse) (now : Nat)
    (name : String) (rg : Option String) :
    (∀ e, getServiceIpRanges (loadedState doc now) name rg = .ok (some e) →
      e.countIpv4 = e.ipv4_prefixes.length ∧ e.countIpv6 = e.ipv6_prefixes.length) ∧
    (∀ r S v, getAllServiceIpRanges (loadedState doc now) rg = .ok r →
      (S, v) ∈ r.services →
      v.countIpv4 = v.ipv4_prefixes.length ∧ v.countIpv6 = v.ipv6_prefixes.length) := by
  constructor
  · intro e he
    unfold getServiceIpRanges at he
    by_cases hcond : ((rg.getD "" != "") && (loadedState doc now).ipRangesData.isSome) = true
    · rw [if_pos hcond] at he
      unfold filterByServiceAndRegion at he
      cases hd : (loadedState doc now).ipRangesData with
      | none => simp only [hd] at he; exact absurd he (by simp)
      | some d =>
        simp only [hd] at he
        cases hp : d.prefixes with
        | none =>
          simp only [hp] at he
          exact absurd he (by simp)
        | some ps =>
          simp only [hp, Except.ok.injEq] at he
          exact filterCore_counts he
    · rw [if_neg hcond] at he
      simp only [Except.ok.injEq, Option.map_eq_some'] at he
      obtain ⟨kv, hfind, rfl⟩ := he
      exact loadedState_map_counts doc now kv (List.mem_of_find?_eq_some hfind)
  · intro r S v hr hmem
    cases rg with
    | none =>
      rw [getAll_none_eq] at hr
      cases hr
      simp only [List.mem_map] at hmem
      obtain ⟨kv, hkv, heq⟩ := hmem
      have hcounts := loadedState_map_counts doc now kv hkv
      cases heq
      exact hcounts
    | some rr =>
      by_cases hrr : rr = ""
      · subst hrr
        rw [getAll_empty_eq, getAll_none_eq] at hr
        cases hr
        simp only [List.mem_map] at hmem
        obtain ⟨kv, hkv, heq⟩ := hmem
        have hcounts := loadedState_map_counts doc now kv hkv
        cases heq
        exact hcounts
      · cases hp : doc.prefixes with
        | none =>
          rw [loadedState_bad_eq doc now hp] at hr
          unfold getAllServiceIpRanges at hr
          simp only [List.foldlM_nil, List.map_nil, except_pure_bind] at hr
          split at hr <;>
            (cases hr
             exact absurd hmem (by simp))
        | some ps =>
          have hd : (loadedState doc now).ipRangesData = some doc := by
            rw [loadedState_eq doc now ps hp]
          rw [getAll_region_eq (loadedState doc now) doc ps hd hp rr hrr] at hr
          cases hr
          unfold regionFilterEntries at hmem
          simp only [List.mem_filterMap] at hmem
          obtain ⟨e, _, hstep⟩ := hmem
          cases hfc : filterCore ps (doc.ipv6_prefixes.getD []) (jsUpper e.1) rr with
          | none =>
            simp only [hfc] at hstep
            exact absurd hstep (by simp)
          | some fr =>
            simp only [hfc] at hstep
            by_cases hc : (decide (fr.countIpv4 > 0) || decide (fr.countIpv6 > 0)) = true
            · rw [if_pos hc] at hstep
              simp only [Option.some.injEq, Prod.mk.injEq] at hstep
              obtain ⟨hS, hv⟩ := hstep
              subst hv
              simpa [dropService] using filterCore_counts hfc
            · rw [if_neg hc] at hstep
              exact absurd hstep (by simp)

/-- Closed instance of C10_counts_match_lengths. -/
theorem C10_counts_witness :
    (⟨"EC2", ["10.0.0.0/8"], [], 1, 0⟩ : ServiceIpRanges).countIpv4 =
        (["10.0.0.0/8"] : List String).length ∧
    (⟨"EC2", ["10.0.0.0/8"], [], 1, 0⟩ : ServiceIpRanges).countIpv6 =
        ([] : List String).length :=
  (C10_counts_match_lengths
      ⟨"s", "", some [⟨"10.0.0.0/8", "us-east-1", "EC2", "g"⟩], some []⟩ 1 "ec2" none).1
    ⟨"EC2", ["10.0.0.0/8"], [], 1, 0⟩ (by rfl)

/-! ## Bit-level lemmas for claim C1 -/

lemma land_high_mask {w k x : Nat} (hk : k ≤ w) (hx : x < 2 ^ w) :
    x &&& (2 ^ w - 2 ^ k) = x / 2 ^ k * 2 ^ k := by
  have hmask : 2 ^ w - 2 ^ k = (2 ^ (w - k) - 1) <<< k := by
    rw [Nat.shiftLeft_eq, Nat.sub_mul, Nat.one_mul, ← Nat.pow_add]
    congr 2
    omega
  have hrhs : x / 2 ^ k * 2 ^ k = (x >>> k) <<< k := by
    rw [Nat.shiftRight_eq_div_pow, Nat.shiftLeft_eq]
  rw [hmask, hrhs]
  apply Nat.eq_of_testBit_eq
  intro i
  simp only [Nat.testBit_and, Nat.testBit_shiftLeft, Nat.testBit_shiftRight,
    Nat.testBit_two_pow_sub_one, ge_iff_le]
  by_cases hik : k ≤ i
  · have hki : k + (i - k) = i := by omega
    rw [hki]
    by_cases hiw : i < w
    · have hik2 : i - k < w - k := by omega
      simp [hik, hik2]
    · have hxi : x.testBit i = false :=
        Nat.testBit_lt_two_pow
          (lt_of_lt_of_le hx (Nat.pow_le_pow_right (by omega) (by omega)))
      simp [hxi]
  · simp [hik]

lemma land_high_eq_iff {w k x y : Nat} (hk : k ≤ w) (hx : x < 2 ^ w)
    (hy : y < 2 ^ w) :
    (x &&& (2 ^ w - 2 ^ k)) = (y &&& (2 ^ w - 2 ^ k)) ↔ x / 2 ^ k = y / 2 ^ k := by
  rw [land_high_mask hk hx, land_high_mask hk hy]
  constructor
  · exact fun h => Nat.eq_of_mul_eq_mul_right (Nat.pos_pow_of_pos k (by omega)) h
  · intro h
    rw [h]

lemma bitsBE_zero (w : Nat) : bitsBE w 0 = List.replicate w '0' := by
  unfold bitsBE
  rw [show (fun i => bitChar ((0 : Nat).testBit (w - 1 - i)))
      = (fun _ => '0') from funext (fun i => by simp [bitChar])]
  simp [List.map_const']

lemma bitsBE_succ (w n : Nat) :
    bitsBE (w + 1) n = bitsBE w (n / 2) ++ [bitChar (decide (n % 2 = 1))] := by
  unfold bitsBE
  rw [List.range_succ, List.map_append]
  congr 1
  · apply List.map_congr_left
    intro i hi
    have hi' : i < w := List.mem_range.mp hi
    have h1 : w - 1 - i + 1 = w + 1 - 1 - i := by omega
    rw [Nat.testBit_div_two, h1]
  · simp [Nat.testBit_zero]

lemma padStart_binDigitsAux {w n : Nat} (h : n < 2 ^ w) :
    padStartZeros w (binDigitsAux n) = bitsBE w n := by
  induction w generalizing n with
  | zero =>
    have hn : n = 0 := by omega
    subst hn
    rw [binDigitsAux]
    simp [padStartZeros, bitsBE]
  | succ w ih =>
    by_cases h0 : n = 0
    · subst h0
      rw [binDigitsAux]
      simp [padStartZeros, bitsBE_zero]
    · rw [binDigitsAux, dif_neg h0]
      have hlen : (w + 1) - ((binDigitsAux (n / 2)).length + 1)
          = w - (binDigitsAux (n / 2)).length := by omega
      unfold padStartZeros
      rw [List.length_append, List.length_cons, List.length_nil, hlen,
        ← List.append_assoc]
      have hdiv : n / 2 < 2 ^ w := by
        have : (2 : Nat) ^ (w + 1) = 2 ^ w * 2 := by rw [Nat.pow_succ]
        omega
      have := ih hdiv
      unfold padStartZeros at this
      rw [this, bitsBE_succ]

lemma padStart_binDigits {w n : Nat} (hw : 0 < w) (h : n < 2 ^ w) :
    padStartZeros w (binDigits n) = bitsBE w n := by
  by_cases h0 : n = 0
  · subst h0
    unfold binDigits padStartZeros
    rw [if_pos rfl, bitsBE_zero]
    have : w - ([' '].length) = w - 1 := by simp
    calc List.replicate (w - ['0'].length) '0' ++ ['0']
        = List.replicate (w - 1) '0' ++ ['0'] := by simp
      _ = List.replicate (w - 1 + 1) '0' := (List.replicate_succ' (w - 1) '0').symm
      _ = List.replicate w '0' := by congr 1; omega
  · unfold binDigits
    rw [if_neg h0]
    exact padStart_binDigitsAux h

lemma jsBinString16_eq {g : Nat} (h : g < 2 ^ 16) :
    jsBinString16 (some g) = bitsBE 16 g := by
  unfold jsBinString16
  exact padStart_binDigits (by omega) h

lemma bitsBE_append {j k a b : Nat} (ha : a < 2 ^ j) (hb : b < 2 ^ k) :
    bitsBE (j + k) (a * 2 ^ k + b) = bitsBE j a ++ bitsBE k b := by
  unfold bitsBE
  rw [List.range_add, List.map_append, List.map_map]
  congr 1
  · apply List.map_congr_left
    intro i hi
    have hi' : i < j := List.mem_range.mp hi
    have hpos : ¬(j + k - 1 - i < k) := by omega
    rw [Nat.mul_comm a (2 ^ k)]
    rw [Nat.testBit_mul_pow_two_add a hb (j + k - 1 - i), if_neg hpos]
    congr 2
    omega
  · apply List.map_congr_left
    intro i hi
    have hi' : i < k := List.mem_range.mp hi
    have hpos : j + k - 1 - (j + i) < k := by omega
    simp only [Function.comp]
    rw [Nat.mul_comm a (2 ^ k)]
    rw [Nat.testBit_mul_pow_two_add a hb (j + k - 1 - (j + i)), if_pos hpos]
    congr 2
    omega

lemma groupsVal_lt {gs : List Nat} (h : ∀ g ∈ gs, g < 2 ^ 16) :
    groupsVal gs < 2 ^ (16 * gs.length) := by
  induction gs with
  | nil => simp [groupsVal]
  | cons g rest ih =>
    have hg : g < 2 ^ 16 := h g (List.mem_cons_self g rest)
    have hr : groupsVal rest < 2 ^ (16 * rest.length) :=
      ih (fun x hx => h x (List.mem_cons_of_mem g hx))
    unfold groupsVal
    have hlen : 16 * (g :: rest).length = 16 + 16 * rest.length := by
      simp [List.length_cons]
      ring
    rw [List.length_cons]
    calc g * 2 ^ (16 * rest.length) + groupsVal rest
        < (g + 1) * 2 ^ (16 * rest.length) := by
          have := Nat.mul_le_mul_right (2 ^ (16 * rest.length)) (Nat.le_refl g)
          nlinarith [Nat.pos_pow_of_pos (16 * rest.length) (show 0 < 2 by omega)]
      _ ≤ 2 ^ 16 * 2 ^ (16 * rest.length) := by
          apply Nat.mul_le_mul_right
          omega
      _ = 2 ^ (16 * (rest.length + 1)) := by
          rw [← Nat.pow_add]
          congr 1
          ring

lemma flatten_bits {gs : List Nat} (h : ∀ g ∈ gs, g < 2 ^ 16) :
    ipv6BinaryOfGroups (gs.map some) = bitsBE (16 * gs.length) (groupsVal gs) := by
  induction gs with
  | nil => simp [ipv6BinaryOfGroups, groupsVal, bitsBE]
  | cons g rest ih =>
    have hg : g < 2 ^ 16 := h g (List.mem_cons_self g rest)
    have hrest : ∀ x ∈ rest, x < 2 ^ 16 := fun x hx => h x (List.mem_cons_of_mem g hx)
    unfold ipv6BinaryOfGroups at ih ⊢
    simp only [List.map_cons, List.flatten_cons]
    rw [ih hrest, jsBinString16_eq hg]
    rw [← bitsBE_append hg (groupsVal_lt hrest)]
    have h1 : 16 * (g :: rest).length = 16 + 16 * rest.length := by
      simp [List.length_cons]
      ring
    rw [h1]
    rfl

lemma bitsBE_take {w b v : Nat} (hb : b ≤ w) :
    (bitsBE w v).take b = bitsBE b (v / 2 ^ (w - b)) := by
  unfold bitsBE
  rw [← List.map_take, List.take_range, Nat.min_eq_left hb]
  apply List.map_congr_left
  intro i hi
  have hi' : i < b := List.mem_range.mp hi
  rw [← Nat.shiftRight_eq_div_pow, Nat.testBit_shiftRight]
  congr 2
  omega

lemma bitChar_inj {x y : Bool} (h : bitChar x = bitChar y) : x = y := by
  cases x <;> cases y <;> simp_all [bitChar]

lemma bitsBE_inj {b v v' : Nat} (hv : v < 2 ^ b) (hv' : v' < 2 ^ b)
    (h : bitsBE b v = bitsBE b v') : v = v' := by
  apply Nat.eq_of_testBit_eq
  intro j
  by_cases hj : j < b
  · have hidx : b - 1 - j < b := by omega
    have hcomp := congrArg (fun l => l[b - 1 - j]?) h
    simp only [bitsBE, List.getElem?_map, List.getElem?_range, hidx,
      Option.map_some'] at hcomp
    have harith : b - 1 - (b - 1 - j) = j := by omega
    rw [harith] at hcomp
    exact bitChar_inj (Option.some.inj hcomp)
  · have h2 : (2 : Nat) ^ b ≤ 2 ^ j := Nat.pow_le_pow_right (by omega) (by omega)
    rw [Nat.testBit_lt_two_pow (lt_of_lt_of_le hv h2),
      Nat.testBit_lt_two_pow (lt_of_lt_of_le hv' h2)]

/-! ## Claim C1 -/

/-- C1: for valid operands the containment checks decide exactly agreement
on the top prefixLength bits of the fixed-width integer values.  IPv4:
isIpv4InCidrNum with a prefix length of at most 32 and 32-bit operands is
true iff the two values agree above bit 32-bits, which makes the result
independent of every lower bit of either operand, also at prefix lengths
that are not multiples of 8.  IPv6: the binary-string comparison of
isIpv6InCidrCore over eight valid 16-bit groups per side is true iff the
two 128-bit values agree on the top prefixLength bits. -/
theorem C1_contains_iff_top_bits :
    (∀ ipNum rangeNum bits : Nat, ipNum < 2 ^ 32 → rangeNum < 2 ^ 32 → bits ≤ 32 →
      (isIpv4InCidrNum ipNum rangeNum (some bits) = true ↔
        ipNum / 2 ^ (32 - bits) = rangeNum / 2 ^ (32 - bits))) ∧
    (∀ (ipGs rGs : List Nat) (bits : Nat), ipGs.length = 8 → rGs.length = 8 →
      (∀ g ∈ ipGs, g < 2 ^ 16) → (∀ g ∈ rGs, g < 2 ^ 16) → bits ≤ 128 →
      (isIpv6InCidrCore (ipGs.map some) (rGs.map some) bits = true ↔
        groupsVal ipGs / 2 ^ (128 - bits) = groupsVal rGs / 2 ^ (128 - bits))) := by
  constructor
  · intro ipNum rangeNum bits hip hrange hbits
    simp only [isIpv4InCidrNum, jsMaskOfBits, if_pos hbits]
    change (ipNum &&& (2 ^ 32 - 2 ^ (32 - bits))
        == rangeNum &&& (2 ^ 32 - 2 ^ (32 - bits))) = true ↔ _
    rw [beq_iff_eq]
    exact land_high_eq_iff (by omega) hip hrange
  · intro ipGs rGs bits hlip hlr hgip hgr hbits
    unfold isIpv6InCidrCore
    rw [flatten_bits hgip, flatten_bits hgr, hlip, hlr]
    have h128 : 16 * 8 = 128 := by omega
    rw [h128]
    rw [bitsBE_take hbits, bitsBE_take hbits, beq_iff_eq]
    have hvip : groupsVal ipGs < 2 ^ 128 := by
      have := groupsVal_lt hgip
      rw [hlip] at this
      exact this
    have hvr : groupsVal rGs < 2 ^ 128 := by
      have := groupsVal_lt hgr
      rw [hlr] at this
      exact this
    constructor
    · intro h
      have harith : 128 - bits + bits = 128 := by omega
      apply bitsBE_inj ?_ ?_ h
      · apply Nat.div_lt_of_lt_mul
        rw [← Nat.pow_add, harith]
        exact hvip
      · apply Nat.div_lt_of_lt_mul
        rw [← Nat.pow_add, harith]
        exact hvr
    · intro h
      rw [h]

/-- Closed instance of C1_contains_iff_top_bits at a /30 IPv4 check and a
/32 IPv6 check. -/
theorem C1_contains_witness :
    (isIpv4InCidrNum 167772161 167772160 (some 30) = true ↔
      167772161 / 2 ^ (32 - 30) = 167772160 / 2 ^ (32 - 30)) ∧
    (isIpv6InCidrCore ([9728, 36864, 0, 0, 0, 0, 0, 1].map some)
        ([9728, 36864, 0, 0, 0, 0, 0, 0].map some) 32 = true ↔
      groupsVal [9728, 36864, 0, 0, 0, 0, 0, 1] / 2 ^ (128 - 32)
        = groupsVal [9728, 36864, 0, 0, 0, 0, 0, 0] / 2 ^ (128 - 32)) :=
  ⟨C1_contains_iff_top_bits.1 167772161 167772160 30 (by decide) (by decide) (by decide),
   C1_contains_iff_top_bits.2 [9728, 36864, 0, 0, 0, 0, 0, 1]
     [9728, 36864, 0, 0, 0, 0, 0, 0] 32 (by decide) (by decide) (by decide)
     (by decide) (by decide)⟩

/-! ## Invariants of the groupByService map build -/

lemma any_beq_iff {m : List (String × SvcSets)} {s : String} :
    (m.any (fun e => e.1 == s)) = true ↔ s ∈ keysOf m := by
  simp only [List.any_eq_true, keysOf, List.mem_map, beq_iff_eq]

lemma keysOf_map_fst_preserve {m : List (String × SvcSets)}
    {f : (String × SvcSets) → (String × SvcSets)} (hf : ∀ e, (f e).1 = e.1) :
    keysOf (m.map f) = keysOf m := by
  unfold keysOf
  rw [List.map_map]
  apply List.map_congr_left
  intro a _
  exact hf a

lemma filter4_append_eq {done : List Ipv4Rec} {p : Ipv4Rec} {k : String}
    (h : p.service = k) :
    (done ++ [p]).filter (fun x => x.service == k)
      = done.filter (fun x => x.service == k) ++ [p] := by
  simp [List.filter_append, h]

lemma filter4_append_ne {done : List Ipv4Rec} {p : Ipv4Rec} {k : String}
    (h : p.service ≠ k) :
    (done ++ [p]).filter (fun x => x.service == k)
      = done.filter (fun x => x.service == k) := by
  simp [List.filter_append, h]

lemma filter6_append_eq {done : List Ipv6Rec} {q : Ipv6Rec} {k : String}
    (h : q.service = k) :
    (done ++ [q]).filter (fun x => x.service == k)
      = done.filter (fun x => x.service == k) ++ [q] := by
  simp [List.filter_append, h]

lemma filter6_append_ne {done : List Ipv6Rec} {q : Ipv6Rec} {k : String}
    (h : q.service ≠ k) :
    (done ++ [q]).filter (fun x => x.service == k)
      = done.filter (fun x => x.service == k) := by
  simp [List.filter_append, h]

lemma entryProp4_extend_match {done : List Ipv4Rec} {p : Ipv4Rec} {k : String}
    {l : List String} (hk : p.service = k) (h : entryProp4 done k l) :
    entryProp4 (done ++ [p]) k (setAdd l p.ip_pfx) := by
  obtain ⟨hnd, hsub, hmem⟩ := h
  refine ⟨setAdd_nodup hnd _, ?_, ?_⟩
  · rw [filter4_append_eq hk, List.map_append]
    exact setAdd_sublist hsub p.ip_pfx
  · intro x
    rw [setAdd_mem, filter4_append_eq hk, List.map_append, List.mem_append, hmem x]
    simp

lemma entryProp4_extend_skip {done : List Ipv4Rec} {p : Ipv4Rec} {k : String}
    {l : List String} (hk : p.service ≠ k) (h : entryProp4 done k l) :
    entryProp4 (done ++ [p]) k l := by
  unfold entryProp4 at h ⊢
  rw [filter4_append_ne hk]
  exact h

lemma entryProp4_single {done : List Ipv4Rec} {p : Ipv4Rec}
    (hfil : done.filter (fun x => x.service == p.service) = []) :
    entryProp4 (done ++ [p]) p.service [p.ip_pfx] := by
  unfold entryProp4
  rw [filter4_append_eq rfl, hfil]
  simp

lemma entryProp6_extend_match {done : List Ipv6Rec} {q : Ipv6Rec} {k : String}
    {l : List String} (hk : q.service = k) (h : entryProp6 done k l) :
    entryProp6 (done ++ [q]) k (setAdd l q.ip_pfx6) := by
  obtain ⟨hnd, hsub, hmem⟩ := h
  refine ⟨setAdd_nodup hnd _, ?_, ?_⟩
  · rw [filter6_append_eq hk, List.map_append]
    exact setAdd_sublist hsub q.ip_pfx6
  · intro x
    rw [setAdd_mem, filter6_append_eq hk, List.map_append, List.mem_append, hmem x]
    simp

lemma entryProp6_extend_skip {done : List Ipv6Rec} {q : Ipv6Rec} {k : String}
    {l : List String} (hk : q.service ≠ k) (h : entryProp6 done k l) :
    entryProp6 (done ++ [q]) k l := by
  unfold entryProp6 at h ⊢
  rw [filter6_append_ne hk]
  exact h

lemma entryProp6_single {done : List Ipv6Rec} {q : Ipv6Rec}
    (hfil : done.filter (fun x => x.service == q.service) = []) :
    entryProp6 (done ++ [q]) q.service [q.ip_pfx6] := by
  unfold entryProp6
  rw [filter6_append_eq rfl, hfil]
  simp

lemma entryProp4_nil {k : String} : entryProp4 [] k [] := by
  unfold entryProp4
  simp

lemma entryProp6_nil {k : String} : entryProp6 [] k [] := by
  unfold entryProp6
  simp

lemma addIpv4_inv {done : List Ipv4Rec} {m : List (String × SvcSets)}
    (p : Ipv4Rec) (h : Inv4 done m) :
    Inv4 (done ++ [p]) (addIpv4 m p.service p.ip_pfx) := by
  obtain ⟨hnd, hprov, hcov, hent⟩ := h
  unfold addIpv4
  by_cases hk : (m.any (fun e => e.1 == p.service)) = true
  · rw [if_pos hk]
    have hkeys : keysOf (m.map (fun e => if e.1 == p.service then
        (e.1, ⟨setAdd e.2.ipv4 p.ip_pfx, e.2.ipv6⟩) else e)) = keysOf m := by
      apply keysOf_map_fst_preserve
      intro e
      by_cases he : (e.1 == p.service) = true
      · rw [if_pos he]
      · rw [if_neg he]
    refine ⟨by rw [hkeys]; exact hnd, ?_, ?_, ?_⟩
    · intro kv hkv
      rw [List.mem_map] at hkv
      obtain ⟨e, he, hupd⟩ := hkv
      have hfst : kv.1 = e.1 := by
        rw [← hupd]
        by_cases hb : (e.1 == p.service) = true
        · rw [if_pos hb]
        · rw [if_neg hb]
      obtain ⟨p0, hp0, hps⟩ := hprov e he
      exact ⟨p0, List.mem_append_left _ hp0, by rw [hfst]; exact hps⟩
    · intro x hx
      rw [List.mem_append] at hx
      rw [hkeys]
      cases hx with
      | inl hxd => exact hcov x hxd
      | inr hxp =>
        rw [List.mem_singleton] at hxp
        subst hxp
        exact any_beq_iff.mp hk
    · intro kv hkv
      rw [List.mem_map] at hkv
      obtain ⟨e, he, hupd⟩ := hkv
      have hee := hent e he
      by_cases hb : (e.1 == p.service) = true
      · rw [if_pos hb] at hupd
        subst hupd
        have hkeq : p.service = e.1 := (beq_iff_eq.mp hb).symm
        exact ⟨entryProp4_extend_match hkeq hee.1, hee.2⟩
      · rw [if_neg hb] at hupd
        subst hupd
        have hkne : p.service ≠ e.1 := fun hcontra => hb (beq_iff_eq.mpr hcontra.symm)
        exact ⟨entryProp4_extend_skip hkne hee.1, hee.2⟩
  · rw [if_neg hk]
    have hknot : p.service ∉ keysOf m := fun hmem => hk (any_beq_iff.mpr hmem)
    have hfil : done.filter (fun x => x.service == p.service) = [] := by
      rw [List.filter_eq_nil_iff]
      intro x hx hxs
      have hxk : x.service ∈ keysOf m := hcov x hx
      rw [beq_iff_eq.mp hxs] at hxk
      exact hknot hxk
    have hkeys2 : keysOf (m ++ [(p.service, (⟨[p.ip_pfx], []⟩ : SvcSets))])
        = keysOf m ++ [p.service] := by
      unfold keysOf
      rw [List.map_append]
      rfl
    refine ⟨?_, ?_, ?_, ?_⟩
    · rw [hkeys2]
      exact hnd.append (List.nodup_singleton _)
        (by intro x hx1 hx2
            rw [List.mem_singleton] at hx2
            subst hx2
            exact hknot hx1)
    · intro kv hkv
      rw [List.mem_append] at hkv
      cases hkv with
      | inl hold =>
        obtain ⟨p0, hp0, hps⟩ := hprov kv hold
        exact ⟨p0, List.mem_append_left _ hp0, hps⟩
      | inr hnew =>
        rw [List.mem_singleton] at hnew
        subst hnew
        exact ⟨p, List.mem_append_right _ (List.mem_singleton_self p), rfl⟩
    · intro x hx
      rw [List.mem_append] at hx
      rw [hkeys2, List.mem_append]
      cases hx with
      | inl hxd => exact Or.inl (hcov x hxd)
      | inr hxp =>
        rw [List.mem_singleton] at hxp
        subst hxp
        exact Or.inr (List.mem_singleton_self _)
    · intro kv hkv
      rw [List.mem_append] at hkv
      cases hkv with
      | inl hold =>
        have hee := hent kv hold
        have hkne : p.service ≠ kv.1 := by
          intro hcontra
          apply hknot
          rw [hcontra]
          unfold keysOf
          exact List.mem_map_of_mem _ hold
        exact ⟨entryProp4_extend_skip hkne hee.1, hee.2⟩
      | inr hnew =>
        rw [List.mem_singleton] at hnew
        subst hnew
        exact ⟨entryProp4_single hfil, rfl⟩

lemma foldIpv4_inv : ∀ (l : List Ipv4Rec) (done : List Ipv4Rec)
    (m : List (String × SvcSets)), Inv4 done m →
    Inv4 (done ++ l) (l.foldl (fun m p => addIpv4 m p.service p.ip_pfx) m) := by
  intro l
  induction l with
  | nil =>
    intro done m h
    simpa using h
  | cons p rest ih =>
    intro done m h
    rw [List.foldl_cons,
      show done ++ p :: rest = (done ++ [p]) ++ rest by simp]
    exact ih (done ++ [p]) _ (addIpv4_inv p h)

lemma inv4_to_inv6 {ps : List Ipv4Rec} {m : List (String × SvcSets)}
    (h : Inv4 ps m) : Inv6 ps [] m := by
  obtain ⟨hnd, hprov, hcov, hent⟩ := h
  refine ⟨hnd, ?_, hcov, ?_, ?_⟩
  · intro kv hkv
    exact Or.inl (hprov kv hkv)
  · intro q hq
    exact absurd hq (List.not_mem_nil q)
  · intro kv hkv
    have hee := hent kv hkv
    refine ⟨hee.1, ?_⟩
    rw [hee.2]
    exact entryProp6_nil

lemma addIpv6_inv {ps : List Ipv4Rec} {done6 : List Ipv6Rec}
    {m : List (String × SvcSets)} (q : Ipv6Rec) (h : Inv6 ps done6 m) :
    Inv6 ps (done6 ++ [q]) (addIpv6 m q.service q.ip_pfx6) := by
  obtain ⟨hnd, hprov, hcov4, hcov6, hent⟩ := h
  unfold addIpv6
  by_cases hk : (m.any (fun e => e.1 == q.service)) = true
  · rw [if_pos hk]
    have hkeys : keysOf (m.map (fun e => if e.1 == q.service then
        (e.1, ⟨e.2.ipv4, setAdd e.2.ipv6 q.ip_pfx6⟩) else e)) = keysOf m := by
      apply keysOf_map_fst_preserve
      intro e
      by_cases he : (e.1 == q.service) = true
      · rw [if_pos he]
      · rw [if_neg he]
    refine ⟨by rw [hkeys]; exact hnd, ?_, ?_, ?_, ?_⟩
    · intro kv hkv
      rw [List.mem_map] at hkv
      obtain ⟨e, he, hupd⟩ := hkv
      have hfst : kv.1 = e.1 := by
        rw [← hupd]
        by_cases hb : (e.1 == q.service) = true
        · rw [if_pos hb]
        · rw [if_neg hb]
      rw [hfst]
      cases hprov e he with
      | inl h4 => exact Or.inl h4
      | inr h6 =>
        obtain ⟨q0, hq0, hqs⟩ := h6
        exact Or.inr ⟨q0, List.mem_append_left _ hq0, hqs⟩
    · intro x hx
      rw [hkeys]
      exact hcov4 x hx
    · intro x hx
      rw [List.mem_append] at hx
      rw [hkeys]
      cases hx with
      | inl hxd => exact hcov6 x hxd
      | inr hxq =>
        rw [List.mem_singleton] at hxq
        subst hxq
        exact any_beq_iff.mp hk
    · intro kv hkv
      rw [List.mem_map] at hkv
      obtain ⟨e, he, hupd⟩ := hkv
      have hee := hent e he
      by_cases hb : (e.1 == q.service) = true
      · rw [if_pos hb] at hupd
        subst hupd
        have hkeq : q.service = e.1 := (beq_iff_eq.mp hb).symm
        exact ⟨hee.1, entryProp6_extend_match hkeq hee.2⟩
      · rw [if_neg hb] at hupd
        subst hupd
        have hkne : q.service ≠ e.1 := fun hcontra => hb (beq_iff_eq.mpr hcontra.symm)
        exact ⟨hee.1, entryProp6_extend_skip hkne hee.2⟩
  · rw [if_neg hk]
    have hknot : q.service ∉ keysOf m := fun hmem => hk (any_beq_iff.mpr hmem)
    have hfil4 : ps.filter (fun x => x.service == q.service) = [] := by
      rw [List.filter_eq_nil_iff]
      intro x hx hxs
      have hxk : x.service ∈ keysOf m := hcov4 x hx
      rw [beq_iff_eq.mp hxs] at hxk
      exact hknot hxk
    have hfil6 : done6.filter (fun x => x.service == q.service) = [] := by
      rw [List.filter_eq_nil_iff]
      intro x hx hxs
      have hxk : x.service ∈ keysOf m := hcov6 x hx
      rw [beq_iff_eq.mp hxs] at hxk
      exact hknot hxk
    have hkeys2 : keysOf (m ++ [(q.service, (⟨[], [q.ip_pfx6]⟩ : SvcSets))])
        = keysOf m ++ [q.service] := by
      unfold keysOf
      rw [List.map_append]
      rfl
    refine ⟨?_, ?_, ?_, ?_, ?_⟩
    · rw [hkeys2]
      exact hnd.append (List.nodup_singleton _)
        (by intro x hx1 hx2
            rw [List.mem_singleton] at hx2
            subst hx2
            exact hknot hx1)
    · intro kv hkv
      rw [List.mem_append] at hkv
      cases hkv with
      | inl hold =>
        cases hprov kv hold with
        | inl h4 => exact Or.inl h4
        | inr h6 =>
          obtain ⟨q0, hq0, hqs⟩ := h6
          exact Or.inr ⟨q0, List.mem_append_left _ hq0, hqs⟩
      | inr hnew =>
        rw [List.mem_singleton] at hnew
        subst hnew
        exact Or.inr ⟨q, List.mem_append_right _ (List.mem_singleton_self q), rfl⟩
    · intro x hx
      rw [hkeys2, List.mem_append]
      exact Or.inl (hcov4 x hx)
    · intro x hx
      rw [List.mem_append] at hx
      rw [hkeys2, List.mem_append]
      cases hx with
      | inl hxd => exact Or.inl (hcov6 x hxd)
      | inr hxq =>
        rw [List.mem_singleton] at hxq
        subst hxq
        exact Or.inr (List.mem_singleton_self _)
    · intro kv hkv
      rw [List.mem_append] at hkv
      cases hkv with
      | inl hold =>
        have hee := hent kv hold
        have hkne : q.service ≠ kv.1 := by
          intro hcontra
          apply hknot
          rw [hcontra]
          unfold keysOf
          exact List.mem_map_of_mem _ hold
        exact ⟨hee.1, entryProp6_extend_skip hkne hee.2⟩
      | inr hnew =>
        rw [List.mem_singleton] at hnew
        subst hnew
        constructor
        · unfold entryProp4
          rw [hfil4]
          simp
        · exact entryProp6_single hfil6

lemma foldIpv6_inv : ∀ (l : List Ipv6Rec) (ps : List Ipv4Rec)
    (done6 : List Ipv6Rec) (m : List (String × SvcSets)), Inv6 ps done6 m →
    Inv6 ps (done6 ++ l) (l.foldl (fun m q => addIpv6 m q.service q.ip_pfx6) m) := by
  intro l
  induction l with
  | nil =>
    intro ps done6 m h
    simpa using h
  | cons q rest ih =>
    intro ps done6 m h
    rw [List.foldl_cons,
      show done6 ++ q :: rest = (done6 ++ [q]) ++ rest by simp]
    exact ih ps (done6 ++ [q]) _ (addIpv6_inv q h)

lemma inv4_nil : Inv4 [] [] := by
  refine ⟨List.nodup_nil, ?_, ?_, ?_⟩ <;> intro x hx <;> exact absurd hx (List.not_mem_nil x)

/-- The full invariant of the serviceMap groupByService builds. -/
lemma buildServiceMap_inv (ps : List Ipv4Rec) (p6s : List Ipv6Rec) :
    Inv6 ps p6s (buildServiceMap ps p6s) := by
  unfold buildServiceMap
  have h1 : Inv4 ([] ++ ps) (ps.foldl (fun m p => addIpv4 m p.service p.ip_pfx) []) :=
    foldIpv4_inv ps [] [] inv4_nil
  rw [List.nil_append] at h1
  have h2 := inv4_to_inv6 h1
  have h3 := foldIpv6_inv p6s ps [] _ h2
  rwa [List.nil_append] at h3

/-! ## Helper lemmas about the query paths -/

lemma getService_region_eq (st : ServiceState) (doc : AWSIpRangesResponse)
    (ps : List Ipv4Rec) (hd : st.ipRangesData = some doc)
    (hp : doc.prefixes = some ps) (name r : String) (hr : r ≠ "") :
    getServiceIpRanges st name (some r) =
      .ok (filterCore ps (doc.ipv6_prefixes.getD []) (jsUpper name) r) := by
  unfold getServiceIpRanges
  have hsome : st.ipRangesData.isSome = true := by rw [hd]; rfl
  simp only [Option.getD_some]
  have hcond : ((r != "") && st.ipRangesData.isSome) = true := by
    simp [hsome, hr]
  rw [hcond]
  simp only [if_true]
  simp [filterByServiceAndRegion, hd, hp]

lemma getService_plain_eq (st : ServiceState) (name : String) :
    getServiceIpRanges st name none =
      .ok ((st.serviceIpRangesMap.find?
        (fun e => jsUpper e.1 == jsUpper name)).map (fun e => e.2)) := rfl

lemma filterCore_eq_none_iff (ps : List Ipv4Rec) (p6s : List Ipv6Rec)
    (s r : String) :
    filterCore ps p6s s r = none ↔
      filterIpv4 ps s (jsUpper r) = [] ∧ filterIpv6 p6s s (jsUpper r) = [] := by
  unfold filterCore
  split
  · rename_i h
    simp only [Bool.and_eq_true, beq_iff_eq, List.length_eq_zero] at h
    simp [h]
  · rename_i h
    simp only [Bool.and_eq_true, beq_iff_eq, List.length_eq_zero] at h
    simp [h]

lemma filterCore_eq_some {ps : List Ipv4Rec} {p6s : List Ipv6Rec}
    {s r : String} {e : ServiceIpRanges} (h : filterCore ps p6s s r = some e) :
    e.ipv4_prefixes = filterIpv4 ps s (jsUpper r) ∧
      e.ipv6_prefixes = filterIpv6 p6s s (jsUpper r) ∧ e.service = s := by
  unfold filterCore at h
  split at h
  · exact absurd h (by simp)
  · cases h
    exact ⟨rfl, rfl, rfl⟩

lemma filterCore_of_mem4 (ps : List Ipv4Rec) (p6s : List Ipv6Rec)
    {s r x : String} (hx : x ∈ filterIpv4 ps s (jsUpper r)) :
    ∃ fr, filterCore ps p6s s r = some fr ∧
      fr.ipv4_prefixes = filterIpv4 ps s (jsUpper r) ∧
      fr.ipv6_prefixes = filterIpv6 p6s s (jsUpper r) ∧ 0 < fr.countIpv4 := by
  have hne : (filterIpv4 ps s (jsUpper r)).length ≠ 0 := by
    intro h0
    rw [List.length_eq_zero] at h0
    rw [h0] at hx
    exact absurd hx (List.not_mem_nil x)
  unfold filterCore
  rw [if_neg (by simp [hne])]
  exact ⟨_, rfl, rfl, rfl, Nat.pos_of_ne_zero hne⟩

lemma filterCore_of_mem6 (ps : List Ipv4Rec) (p6s : List Ipv6Rec)
    {s r x : String} (hx : x ∈ filterIpv6 p6s s (jsUpper r)) :
    ∃ fr, filterCore ps p6s s r = some fr ∧
      fr.ipv4_prefixes = filterIpv4 ps s (jsUpper r) ∧
      fr.ipv6_prefixes = filterIpv6 p6s s (jsUpper r) ∧ 0 < fr.countIpv6 := by
  have hne : (filterIpv6 p6s s (jsUpper r)).length ≠ 0 := by
    intro h0
    rw [List.length_eq_zero] at h0
    rw [h0] at hx
    exact absurd hx (List.not_mem_nil x)
  unfold filterCore
  rw [if_neg (by simp [hne])]
  exact ⟨_, rfl, rfl, rfl, Nat.pos_of_ne_zero hne⟩

lemma mem_filterIpv4 {ps : List Ipv4Rec} {s ur x : String} :
    x ∈ filterIpv4 ps s ur ↔
      ∃ p ∈ ps, jsUpper p.service = s ∧ jsUpper p.region = ur ∧ p.ip_pfx = x := by
  unfold filterIpv4
  simp only [List.mem_map, List.mem_filter, Bool.and_eq_true, beq_iff_eq]
  constructor
  · rintro ⟨p, ⟨hp, hs, hr⟩, rfl⟩
    exact ⟨p, hp, hs, hr, rfl⟩
  · rintro ⟨p, hp, hs, hr, rfl⟩
    exact ⟨p, ⟨hp, hs, hr⟩, rfl⟩

lemma mem_filterIpv6 {p6s : List Ipv6Rec} {s ur x : String} :
    x ∈ filterIpv6 p6s s ur ↔
      ∃ q ∈ p6s, jsUpper q.service = s ∧ jsUpper q.region = ur ∧ q.ip_pfx6 = x := by
  unfold filterIpv6
  simp only [List.mem_map, List.mem_filter, Bool.and_eq_true, beq_iff_eq]
  constructor
  · rintro ⟨q, ⟨hq, hs, hr⟩, rfl⟩
    exact ⟨q, hq, hs, hr, rfl⟩
  · rintro ⟨q, hq, hs, hr, rfl⟩
    exact ⟨q, ⟨hq, hs, hr⟩, rfl⟩

/-! ## Claim C5 -/

/-- C5 counterexample: a region argument is given (the empty string) and
no record has a region that case-insensitively equals it, so per the claim
the lookup should return NotFound restricted to those records; instead the
empty region is falsy, the filter branch is skipped, and the full merged
entry is returned. -/
theorem C5_counterexample :
    getServiceIpRanges
        (loadedState ⟨"s", "", some [⟨"10.0.0.0/8", "us-east-1", "EC2", ""⟩], some []⟩ 1)
        "EC2" (some "")
      = .ok (some ⟨"EC2", ["10.0.0.0/8"], [], 1, 0⟩) ∧
    filterIpv4 [⟨"10.0.0.0/8", "us-east-1", "EC2", ""⟩] (jsUpper "EC2") (jsUpper "")
      = [] := by
  constructor
  · rfl
  · rfl

/-- C5 amended: for a nonempty region argument the result is exactly the
records whose uppercased service and region match (null exactly when both
filtered families are empty, which covers the unknown-service case); an
empty region argument is treated as absent; without a region the lookup is
case-insensitive on the service key and null exactly when no key matches. -/
theorem C5_get_service_region (st : ServiceState) (doc : AWSIpRangesResponse)
    (ps : List Ipv4Rec) (p6s : List Ipv6Rec) (name r : String)
    (hd : st.ipRangesData = some doc) (hp : doc.prefixes = some ps)
    (hp6 : doc.ipv6_prefixes = some p6s) (hr : r ≠ "") :
    (getServiceIpRanges st name (some r) = .ok none ↔
      filterIpv4 ps (jsUpper name) (jsUpper r) = [] ∧
      filterIpv6 p6s (jsUpper name) (jsUpper r) = []) ∧
    (∀ e, getServiceIpRanges st name (some r) = .ok (some e) →
      e.ipv4_prefixes = filterIpv4 ps (jsUpper name) (jsUpper r) ∧
      e.ipv6_prefixes = filterIpv6 p6s (jsUpper name) (jsUpper r)) ∧
    (getServiceIpRanges st name none = .ok none ↔
      ∀ kv ∈ st.serviceIpRangesMap, jsUpper kv.1 ≠ jsUpper name) := by
  have hreg := getService_region_eq st doc ps hd hp name r hr
  rw [hp6] at hreg
  simp only [Option.getD_some] at hreg
  refine ⟨?_, ?_, ?_⟩
  · rw [hreg]
    simp only [Except.ok.injEq]
    exact filterCore_eq_none_iff ps p6s (jsUpper name) r
  · intro e he
    rw [hreg] at he
    simp only [Except.ok.injEq] at he
    have := filterCore_eq_some he
    exact ⟨this.1, this.2.1⟩
  · rw [getService_plain_eq]
    simp only [Except.ok.injEq, Option.map_eq_none', List.find?_eq_none,
      beq_iff_eq]

/-- Closed instance of C5_get_service_region. -/
theorem C5_get_service_region_witness :
    getServiceIpRanges
        (loadedState ⟨"s", "", some [⟨"10.0.0.0/8", "us-east-1", "EC2", ""⟩], some []⟩ 1)
        "ec2" (some "US-EAST-1") = .ok none ↔
      filterIpv4 [⟨"10.0.0.0/8", "us-east-1", "EC2", ""⟩] (jsUpper "ec2") (jsUpper "US-EAST-1") = [] ∧
      filterIpv6 [] (jsUpper "ec2") (jsUpper "US-EAST-1") = [] :=
  (C5_get_service_region
      (loadedState ⟨"s", "", some [⟨"10.0.0.0/8", "us-east-1", "EC2", ""⟩], some []⟩ 1)
      ⟨"s", "", some [⟨"10.0.0.0/8", "us-east-1", "EC2", ""⟩], some []⟩
      [⟨"10.0.0.0/8", "us-east-1", "EC2", ""⟩] [] "ec2" "US-EAST-1"
      (by rfl) rfl rfl (by decide)).1

/-! ## Claim C6 -/

/-- C6 counterexample: the upstream dataset repeats an identical record
(same cidr, service, region); the region-filtered result lists the prefix
twice, so results do not list each prefix at most once per family. -/
theorem C6_counterexample :
    getServiceIpRanges
        (loadedState ⟨"s", "", some [⟨"10.0.0.0/8", "us-east-1", "EC2", ""⟩,
            ⟨"10.0.0.0/8", "us-east-1", "EC2", ""⟩], some []⟩ 1)
        "EC2" (some "us-east-1")
      = .ok (some ⟨"EC2", ["10.0.0.0/8", "10.0.0.0/8"], [], 2, 0⟩) := by
  rfl

/-- C6 amended: results served from the groupByService map (the no-region
path) list each prefix at most once per family, in first-occurrence order
(a Sublist of the source order), and contain exactly the prefixes of that
service; the region-filtered path instead echoes one entry per matching
record, so upstream duplicates repeat in its lists. -/
theorem C6_dedup (doc : AWSIpRangesResponse) (now : Nat) (ps : List Ipv4Rec)
    (p6s : List Ipv6Rec) (hp : doc.prefixes = some ps)
    (hp6 : doc.ipv6_prefixes = some p6s) :
    (∀ k e, (k, e) ∈ (loadedState doc now).serviceIpRangesMap →
      e.ipv4_prefixes.Nodup ∧ e.ipv6_prefixes.Nodup ∧
      e.ipv4_prefixes.Sublist
        ((ps.filter (fun p => p.service == k)).map (fun p => p.ip_pfx)) ∧
      e.ipv6_prefixes.Sublist
        ((p6s.filter (fun q => q.service == k)).map (fun q => q.ip_pfx6)) ∧
      (∀ x, x ∈ e.ipv4_prefixes ↔
        x ∈ (ps.filter (fun p => p.service == k)).map (fun p => p.ip_pfx)) ∧
      (∀ x, x ∈ e.ipv6_prefixes ↔
        x ∈ (p6s.filter (fun q => q.service == k)).map (fun q => q.ip_pfx6))) ∧
    (∀ name r e2, r ≠ "" →
      getServiceIpRanges (loadedState doc now) name (some r) = .ok (some e2) →
      e2.ipv4_prefixes = filterIpv4 ps (jsUpper name) (jsUpper r) ∧
      e2.ipv6_prefixes = filterIpv6 p6s (jsUpper name) (jsUpper r)) := by
  have hmap := loadedState_eq doc now ps hp
  have hinv := buildServiceMap_inv ps (doc.ipv6_prefixes.getD [])
  rw [hp6] at hinv hmap
  simp only [Option.getD_some] at hinv hmap
  constructor
  · intro k e hke
    rw [hmap] at hke
    simp only [List.mem_map] at hke
    obtain ⟨e0, he0, heq⟩ := hke
    have hk : k = e0.1 := by
      have := congrArg Prod.fst heq
      exact this.symm
    have he : e = mkServiceIpRanges e0.1 e0.2 := by
      have := congrArg Prod.snd heq
      exact this.symm
    subst hk
    subst he
    have hent := hinv.2.2.2.2 e0 he0
    obtain ⟨⟨hnd4, hsub4, hmem4⟩, ⟨hnd6, hsub6, hmem6⟩⟩ := hent
    exact ⟨hnd4, hnd6, hsub4, hsub6, hmem4, hmem6⟩
  · intro name r e2 hr he2
    have hd : (loadedState doc now).ipRangesData = some doc := by rw [hmap]
    have hreg := getService_region_eq (loadedState doc now) doc ps hd hp name r hr
    rw [hp6] at hreg
    simp only [Option.getD_some] at hreg
    rw [hreg] at he2
    simp only [Except.ok.injEq] at he2
    have := filterCore_eq_some he2
    exact ⟨this.1, this.2.1⟩

/-- Closed instance of the region-path clause of C6_dedup. -/
theorem C6_dedup_witness :
    (⟨"EC2", ["10.0.0.0/8", "10.0.0.0/8"], [], 2, 0⟩ : ServiceIpRanges).ipv4_prefixes
        = filterIpv4 [⟨"10.0.0.0/8", "us-east-1", "EC2", ""⟩,
            ⟨"10.0.0.0/8", "us-east-1", "EC2", ""⟩] (jsUpper "EC2") (jsUpper "us-east-1") ∧
    (⟨"EC2", ["10.0.0.0/8", "10.0.0.0/8"], [], 2, 0⟩ : ServiceIpRanges).ipv6_prefixes
        = filterIpv6 [] (jsUpper "EC2") (jsUpper "us-east-1") :=
  (C6_dedup ⟨"s", "", some [⟨"10.0.0.0/8", "us-east-1", "EC2", ""⟩,
      ⟨"10.0.0.0/8", "us-east-1", "EC2", ""⟩], some []⟩ 1
      [⟨"10.0.0.0/8", "us-east-1", "EC2", ""⟩, ⟨"10.0.0.0/8", "us-east-1", "EC2", ""⟩]
      [] rfl rfl).2 "EC2" "us-east-1"
    ⟨"EC2", ["10.0.0.0/8", "10.0.0.0/8"], [], 2, 0⟩ (by decide) (by rfl)

/-! ## Claim C4 -/

/-- C4 counterexample: a record with an empty region and a mixed-case
sibling service.  searchByIp finds the prefix owned by service EC2 region
empty, but getServiceIpRanges with that empty region skips the filter
branch (empty strings are falsy), answers from the first case-insensitive
map key - the differently-cased sibling ec2 - and its list does not
include the matched prefix. -/
theorem C4_counterexample :
    searchByIp (loadedState ⟨"s", "", some [⟨"10.0.0.0/8", "", "ec2", ""⟩,
        ⟨"11.0.0.0/8", "", "EC2", ""⟩], some []⟩ 1) "11.0.0.1"
      = .ok ⟨"11.0.0.1", true, [⟨"EC2", "", "11.0.0.0/8", ""⟩]⟩ ∧
    getServiceIpRanges (loadedState ⟨"s", "", some [⟨"10.0.0.0/8", "", "ec2", ""⟩,
        ⟨"11.0.0.0/8", "", "EC2", ""⟩], some []⟩ 1) "EC2" (some "")
      = .ok (some ⟨"ec2", ["10.0.0.0/8"], [], 1, 0⟩) ∧
    "11.0.0.0/8" ∉ (["10.0.0.0/8"] : List String) :=
  ⟨rfl, rfl, by decide⟩

/-- C4 amended: when the matched record carries a nonempty region, the
consistency holds: a match returned by searchByIp on prefix p with service
S and region R implies getServiceIpRanges(S, R) succeeds and its prefix
list for the searched family contains p. -/
theorem C4_search_get (st : ServiceState) (doc : AWSIpRangesResponse)
    (ps : List Ipv4Rec) (a : String) (res : IpSearchResult) (m : IpSearchMatch)
    (hd : st.ipRangesData = some doc) (hp : doc.prefixes = some ps)
    (hs : searchByIp st a = .ok res) (hm : m ∈ res.matchList)
    (hreg : m.region ≠ "") :
    ∃ e, getServiceIpRanges st m.service (some m.region) = .ok (some e) ∧
      (if jsIncludes a ':' = true then m.pfx ∈ e.ipv6_prefixes
       else m.pfx ∈ e.ipv4_prefixes) := by
  by_cases hc : jsIncludes a ':' = true
  · obtain ⟨q, hq, rfl⟩ := searchByIp_v6_matches st doc a res hd hc hs m hm
    have hx : q.ip_pfx6 ∈ filterIpv6 (doc.ipv6_prefixes.getD [])
        (jsUpper q.service) (jsUpper q.region) := by
      rw [mem_filterIpv6]
      exact ⟨q, hq, rfl, rfl, rfl⟩
    obtain ⟨fr, hfr, hf4, hf6, hpos⟩ := filterCore_of_mem6 ps (doc.ipv6_prefixes.getD []) hx
    refine ⟨fr, ?_, ?_⟩
    · rw [getService_region_eq st doc ps hd hp (mkMatch6 q).service
        (mkMatch6 q).region hreg]
      simp only [mkMatch6]
      rw [hfr]
    · rw [if_pos hc]
      simp only [mkMatch6]
      rw [hf6]
      exact hx
  · have hc2 : jsIncludes a ':' = false := by
      cases hca : jsIncludes a ':' with
      | true => exact absurd hca hc
      | false => rfl
    have hs2 := searchByIp_v4_eq st doc ps a hd hp hc2
    rw [hs2] at hs
    cases hs
    simp only [List.mem_map, List.mem_filter] at hm
    obtain ⟨p, ⟨hpin, hcond⟩, rfl⟩ := hm
    have hx : p.ip_pfx ∈ filterIpv4 ps (jsUpper p.service) (jsUpper p.region) := by
      rw [mem_filterIpv4]
      exact ⟨p, hpin, rfl, rfl, rfl⟩
    obtain ⟨fr, hfr, hf4, hf6, hpos⟩ :=
      filterCore_of_mem4 ps (doc.ipv6_prefixes.getD []) hx
    refine ⟨fr, ?_, ?_⟩
    · rw [getService_region_eq st doc ps hd hp (mkMatch4 p).service
        (mkMatch4 p).region hreg]
      simp only [mkMatch4]
      rw [hfr]
    · rw [if_neg hc]
      simp only [mkMatch4]
      rw [hf4]
      exact hx

/-- Closed instance of C4_search_get: the searched address 10.1.2.3 falls
in 10.0.0.0/8 owned by service S1 region r1, and the region-filtered
lookup for S1 and r1 contains that prefix. -/
theorem C4_search_get_witness :
    ∃ e, getServiceIpRanges
        (loadedState ⟨"s", "", some [⟨"10.0.0.0/8", "r1", "S1", "g"⟩], some []⟩ 1)
        "S1" (some "r1") = .ok (some e) ∧
      (if jsIncludes "10.1.2.3" ':' = true then "10.0.0.0/8" ∈ e.ipv6_prefixes
       else "10.0.0.0/8" ∈ e.ipv4_prefixes) :=
  C4_search_get
    (loadedState ⟨"s", "", some [⟨"10.0.0.0/8", "r1", "S1", "g"⟩], some []⟩ 1)
    ⟨"s", "", some [⟨"10.0.0.0/8", "r1", "S1", "g"⟩], some []⟩
    [⟨"10.0.0.0/8", "r1", "S1", "g"⟩] "10.1.2.3"
    ⟨"10.1.2.3", true, [⟨"S1", "r1", "10.0.0.0/8", "g"⟩]⟩
    ⟨"S1", "r1", "10.0.0.0/8", "g"⟩
    (by rfl) rfl (by rfl) (by decide) (by decide)

/-! ## Helper lemmas for getRegions -/

lemma setAdd_foldl_mem4 : ∀ (l : List Ipv4Rec) (acc : List String) (x : String),
    x ∈ l.foldl (fun a p => setAdd a p.region) acc ↔ x ∈ acc ∨ ∃ p ∈ l, p.region = x := by
  intro l
  induction l with
  | nil =>
    intro acc x
    simp
  | cons e es ih =>
    intro acc x
    rw [List.foldl_cons, ih, setAdd_mem]
    constructor
    · rintro ((h1 | h1) | ⟨e2, he2, hx⟩)
      · exact Or.inl h1
      · exact Or.inr ⟨e, List.mem_cons_self e es, h1.symm⟩
      · exact Or.inr ⟨e2, List.mem_cons_of_mem e he2, hx⟩
    · rintro (h1 | ⟨e2, he2, hx⟩)
      · exact Or.inl (Or.inl h1)
      · rcases List.mem_cons.mp he2 with rfl | h3
        · exact Or.inl (Or.inr hx.symm)
        · exact Or.inr ⟨e2, h3, hx⟩

lemma setAdd_foldl_mem6 : ∀ (l : List Ipv6Rec) (acc : List String) (x : String),
    x ∈ l.foldl (fun a q => setAdd a q.region) acc ↔ x ∈ acc ∨ ∃ q ∈ l, q.region = x := by
  intro l
  induction l with
  | nil =>
    intro acc x
    simp
  | cons e es ih =>
    intro acc x
    rw [List.foldl_cons, ih, setAdd_mem]
    constructor
    · rintro ((h1 | h1) | ⟨e2, he2, hx⟩)
      · exact Or.inl h1
      · exact Or.inr ⟨e, List.mem_cons_self e es, h1.symm⟩
      · exact Or.inr ⟨e2, List.mem_cons_of_mem e he2, hx⟩
    · rintro (h1 | ⟨e2, he2, hx⟩)
      · exact Or.inl (Or.inl h1)
      · rcases List.mem_cons.mp he2 with rfl | h3
        · exact Or.inl (Or.inr hx.symm)
        · exact Or.inr ⟨e2, h3, hx⟩

lemma mem_keysOf {α : Type} {m : List (String × α)} {s : String} :
    s ∈ keysOf m ↔ ∃ e ∈ m, e.1 = s := by
  simp [keysOf]

lemma mem_insertSorted {x y : String} : ∀ {l : List String},
    y ∈ insertSorted x l ↔ y = x ∨ y ∈ l := by
  intro l
  induction l with
  | nil => simp [insertSorted]
  | cons a as ih =>
    unfold insertSorted
    by_cases h : x ≤ a
    · simp [h]
    · rw [if_neg h]
      simp only [List.mem_cons, ih]
      tauto

lemma mem_sortStrings {x : String} {l : List String} :
    x ∈ sortStrings l ↔ x ∈ l := by
  unfold sortStrings
  induction l with
  | nil => simp
  | cons a as ih =>
    rw [List.foldr_cons, mem_insertSorted, ih]
    simp

/-- Membership in the regions list of getRegions: exactly the region
values of the records of both families. -/
lemma getRegions_mem (doc : AWSIpRangesResponse) (now : Nat)
    (ps : List Ipv4Rec) (p6s : List Ipv6Rec)
    (hp : doc.prefixes = some ps) (hp6 : doc.ipv6_prefixes = some p6s)
    (resp : RegionsListResponse)
    (h : getRegions (loadedState doc now) = .ok resp) (r : String) :
    r ∈ resp.regions ↔ (∃ p ∈ ps, p.region = r) ∨ (∃ q ∈ p6s, q.region = r) := by
  have hd : (loadedState doc now).ipRangesData = some doc := by
    rw [loadedState_eq doc now ps hp]
  unfold getRegions at h
  simp only [hd, hp, hp6, Option.getD_some] at h
  cases h
  dsimp only
  rw [mem_sortStrings]
  rw [setAdd_foldl_mem6, setAdd_foldl_mem4]
  simp

/-! ## Claim C8 -/

/-- C8 counterexample: two records whose services differ only by case.
Without a region the two map keys keep their own single prefixes, but the
region branch calls the case-insensitive filter for every key, so each key
collects both prefixes: the no-region result does not equal the per-key
union of the per-region results. -/
theorem C8_counterexample :
    getRegions (loadedState ⟨"s", "", some [⟨"10.0.0.0/8", "r1", "ec2", ""⟩,
        ⟨"11.0.0.0/8", "r1", "EC2", ""⟩], some []⟩ 1)
      = .ok ⟨["r1"], "s", "1"⟩ ∧
    getAllServiceIpRanges (loadedState ⟨"s", "", some [⟨"10.0.0.0/8", "r1", "ec2", ""⟩,
        ⟨"11.0.0.0/8", "r1", "EC2", ""⟩], some []⟩ 1) none
      = .ok ⟨"s", "1", [("ec2", ⟨["10.0.0.0/8"], [], 1, 0⟩),
          ("EC2", ⟨["11.0.0.0/8"], [], 1, 0⟩)]⟩ ∧
    getAllServiceIpRanges (loadedState ⟨"s", "", some [⟨"10.0.0.0/8", "r1", "ec2", ""⟩,
        ⟨"11.0.0.0/8", "r1", "EC2", ""⟩], some []⟩ 1) (some "r1")
      = .ok ⟨"s", "1", [("ec2", ⟨["10.0.0.0/8", "11.0.0.0/8"], [], 2, 0⟩),
          ("EC2", ⟨["10.0.0.0/8", "11.0.0.0/8"], [], 2, 0⟩)]⟩ :=
  ⟨rfl, rfl, rfl⟩

/-- C8 amended: when no two record services differ only by case, the
no-region result equals, per service key and per address family, the union
over the regions of getRegions of the region-filtered results; no record
is lost since the regions list is derived from the same records. -/
theorem C8_region_union (doc : AWSIpRangesResponse) (now : Nat)
    (ps : List Ipv4Rec) (p6s : List Ipv6Rec)
    (hp : doc.prefixes = some ps) (hp6 : doc.ipv6_prefixes = some p6s)
    (hcase : ∀ s1 s2 : String,
      (s1 ∈ ps.map (fun p => p.service) ∨ s1 ∈ p6s.map (fun q => q.service)) →
      (s2 ∈ ps.map (fun p => p.service) ∨ s2 ∈ p6s.map (fun q => q.service)) →
      jsUpper s1 = jsUpper s2 → s1 = s2)
    (S x : String) (regionsResp : RegionsListResponse)
    (allNone : AllServicesIpRanges)
    (hreg : getRegions (loadedState doc now) = .ok regionsResp)
    (hall : getAllServiceIpRanges (loadedState doc now) none = .ok allNone) :
    ((∃ v, (S, v) ∈ allNone.services ∧ x ∈ v.ipv4_prefixes) ↔
      (∃ r ∈ regionsResp.regions, ∃ resR v,
        getAllServiceIpRanges (loadedState doc now) (some r) = .ok resR ∧
        (S, v) ∈ resR.services ∧ x ∈ v.ipv4_prefixes)) ∧
    ((∃ v, (S, v) ∈ allNone.services ∧ x ∈ v.ipv6_prefixes) ↔
      (∃ r ∈ regionsResp.regions, ∃ resR v,
        getAllServiceIpRanges (loadedState doc now) (some r) = .ok resR ∧
        (S, v) ∈ resR.services ∧ x ∈ v.ipv6_prefixes)) := by
  have hmap := loadedState_eq doc now ps hp
  rw [hp6] at hmap
  simp only [Option.getD_some] at hmap
  have hd : (loadedState doc now).ipRangesData = some doc := by rw [hmap]
  have hsvc : (loadedState doc now).serviceIpRangesMap =
      (buildServiceMap ps p6s).map (fun e => (e.1, mkServiceIpRanges e.1 e.2)) := by
    rw [hmap]
  obtain ⟨hnd, hprov, hcov4, hcov6, hent⟩ := buildServiceMap_inv ps p6s
  rw [getAll_none_eq] at hall
  have hallEq : allNone =
      { syncToken := syncTokenStr (loadedState doc now),
        lastUpdated := lastUpdatedStr (loadedState doc now),
        services := (loadedState doc now).serviceIpRangesMap.map
          (fun e => (e.1, dropService e.2)) } := (Except.ok.inj hall).symm
  have hserv : allNone.services = (buildServiceMap ps p6s).map
      (fun e0 => (e0.1, dropService (mkServiceIpRanges e0.1 e0.2))) := by
    rw [hallEq]
    show ((loadedState doc now).serviceIpRangesMap.map
      (fun e => (e.1, dropService e.2))) = _
    rw [hsvc, List.map_map]
    rfl
  have hemp : getAllServiceIpRanges (loadedState doc now) (some "") = .ok allNone := by
    rw [getAll_empty_eq, getAll_none_eq, hallEq]
  have hregmem : ∀ r, r ∈ regionsResp.regions ↔
      (∃ p ∈ ps, p.region = r) ∨ (∃ q ∈ p6s, q.region = r) := fun r =>
    getRegions_mem doc now ps p6s hp hp6 regionsResp hreg r
  have hSrec : S ∈ keysOf (buildServiceMap ps p6s) →
      (S ∈ ps.map (fun p => p.service) ∨ S ∈ p6s.map (fun q => q.service)) := by
    intro hS
    rw [mem_keysOf] at hS
    obtain ⟨e0, he0, hkey⟩ := hS
    cases hprov e0 he0 with
    | inl h4 =>
      obtain ⟨p2, hp2, hps2⟩ := h4
      refine Or.inl ?_
      rw [List.mem_map]
      exact ⟨p2, hp2, by rw [hps2, hkey]⟩
    | inr h6 =>
      obtain ⟨q2, hq2, hqs2⟩ := h6
      refine Or.inr ?_
      rw [List.mem_map]
      exact ⟨q2, hq2, by rw [hqs2, hkey]⟩
  have hLHS4 : (∃ v, (S, v) ∈ allNone.services ∧ x ∈ v.ipv4_prefixes) ↔
      (S ∈ keysOf (buildServiceMap ps p6s) ∧
        x ∈ (ps.filter (fun p => p.service == S)).map (fun p => p.ip_pfx)) := by
    rw [hserv]
    constructor
    · rintro ⟨v, hv, hx⟩
      rw [List.mem_map] at hv
      obtain ⟨e0, he0, heq⟩ := hv
      have hS2 : e0.1 = S := congrArg Prod.fst heq
      have hveq : dropService (mkServiceIpRanges e0.1 e0.2) = v := congrArg Prod.snd heq
      rw [← hveq] at hx
      have hx2 : x ∈ e0.2.ipv4 := hx
      refine ⟨by rw [mem_keysOf]; exact ⟨e0, he0, hS2⟩, ?_⟩
      have hmemb := (hent e0 he0).1.2.2 x
      rw [hS2] at hmemb
      exact hmemb.mp hx2
    · rintro ⟨hS, hx⟩
      rw [mem_keysOf] at hS
      obtain ⟨e0, he0, hkey⟩ := hS
      refine ⟨dropService (mkServiceIpRanges e0.1 e0.2), ?_, ?_⟩
      · rw [List.mem_map]
        exact ⟨e0, he0, by rw [hkey]⟩
      · show x ∈ e0.2.ipv4
        have hmemb := (hent e0 he0).1.2.2 x
        rw [hkey] at hmemb
        exact hmemb.mpr hx
  have hLHS6 : (∃ v, (S, v) ∈ allNone.services ∧ x ∈ v.ipv6_prefixes) ↔
      (S ∈ keysOf (buildServiceMap ps p6s) ∧
        x ∈ (p6s.filter (fun q => q.service == S)).map (fun q => q.ip_pfx6)) := by
    rw [hserv]
    constructor
    · rintro ⟨v, hv, hx⟩
      rw [List.mem_map] at hv
      obtain ⟨e0, he0, heq⟩ := hv
      have hS2 : e0.1 = S := congrArg Prod.fst heq
      have hveq : dropService (mkServiceIpRanges e0.1 e0.2) = v := congrArg Prod.snd heq
      rw [← hveq] at hx
      have hx2 : x ∈ e0.2.ipv6 := hx
      refine ⟨by rw [mem_keysOf]; exact ⟨e0, he0, hS2⟩, ?_⟩
      have hmemb := (hent e0 he0).2.2.2 x
      rw [hS2] at hmemb
      exact hmemb.mp hx2
    · rintro ⟨hS, hx⟩
      rw [mem_keysOf] at hS
      obtain ⟨e0, he0, hkey⟩ := hS
      refine ⟨dropService (mkServiceIpRanges e0.1 e0.2), ?_, ?_⟩
      · rw [List.mem_map]
        exact ⟨e0, he0, by rw [hkey]⟩
      · show x ∈ e0.2.ipv6
        have hmemb := (hent e0 he0).2.2.2 x
        rw [hkey] at hmemb
        exact hmemb.mpr hx
  have hR4 : ∀ r : String, r ≠ "" →
      ((∃ resR v, getAllServiceIpRanges (loadedState doc now) (some r) = .ok resR ∧
          (S, v) ∈ resR.services ∧ x ∈ v.ipv4_prefixes) ↔
        (S ∈ keysOf (buildServiceMap ps p6s) ∧
          x ∈ filterIpv4 ps (jsUpper S) (jsUpper r))) := by
    intro r hr
    have hregEq := getAll_region_eq (loadedState doc now) doc ps hd hp r hr
    rw [hp6] at hregEq
    simp only [Option.getD_some] at hregEq
    constructor
    · rintro ⟨resR, v, hres, hv, hx⟩
      rw [hregEq] at hres
      have hresEq : resR = _ := (Except.ok.inj hres).symm
      rw [hresEq] at hv
      have hv2 : (S, v) ∈ regionFilterEntries ps p6s
          ((loadedState doc now).serviceIpRangesMap) r := hv
      unfold regionFilterEntries at hv2
      rw [List.mem_filterMap] at hv2
      obtain ⟨kv, hkv, hstep⟩ := hv2
      cases hfc : filterCore ps p6s (jsUpper kv.1) r with
      | none =>
        rw [hfc] at hstep
        exact absurd hstep (by simp)
      | some fr =>
        simp only [hfc] at hstep
        by_cases hcnt : (decide (fr.countIpv4 > 0) || decide (fr.countIpv6 > 0)) = true
        · rw [if_pos hcnt] at hstep
          simp only [Option.some.injEq, Prod.mk.injEq] at hstep
          obtain ⟨hk1, hk2⟩ := hstep
          have hxm : x ∈ fr.ipv4_prefixes := by
            rw [← hk2] at hx
            exact hx
          have hfields := filterCore_eq_some hfc
          rw [hfields.1] at hxm
          rw [hk1] at hxm
          refine ⟨?_, hxm⟩
          rw [hsvc] at hkv
          rw [List.mem_map] at hkv
          obtain ⟨e0, he0, heq⟩ := hkv
          have : e0.1 = kv.1 := congrArg Prod.fst heq
          rw [mem_keysOf]
          exact ⟨e0, he0, by rw [this, hk1]⟩
        · rw [if_neg hcnt] at hstep
          exact absurd hstep (by simp)
    · rintro ⟨hS, hx⟩
      have hSk := hS
      rw [mem_keysOf] at hS
      obtain ⟨e0, he0, hkey⟩ := hS
      obtain ⟨fr, hfc, hf4, hf6, hpos⟩ := filterCore_of_mem4 ps p6s hx
      refine ⟨_, dropService fr, hregEq, ?_, ?_⟩
      · show (S, dropService fr) ∈ regionFilterEntries ps p6s
          ((loadedState doc now).serviceIpRangesMap) r
        unfold regionFilterEntries
        rw [List.mem_filterMap]
        refine ⟨(e0.1, mkServiceIpRanges e0.1 e0.2), ?_, ?_⟩
        · rw [hsvc, List.mem_map]
          exact ⟨e0, he0, rfl⟩
        · show (match filterCore ps p6s (jsUpper e0.1) r with
            | some fr =>
              if fr.countIpv4 > 0 || fr.countIpv6 > 0 then
                some (e0.1, dropService fr) else none
            | none => none) = some (S, dropService fr)
          rw [hkey]
          simp only [hfc]
          rw [if_pos (by simp [hpos])]
      · show x ∈ (dropService fr).ipv4_prefixes
        show x ∈ fr.ipv4_prefixes
        rw [hf4]
        exact hx
  have hR6 : ∀ r : String, r ≠ "" →
      ((∃ resR v, getAllServiceIpRanges (loadedState doc now) (some r) = .ok resR ∧
          (S, v) ∈ resR.services ∧ x ∈ v.ipv6_prefixes) ↔
        (S ∈ keysOf (buildServiceMap ps p6s) ∧
          x ∈ filterIpv6 p6s (jsUpper S) (jsUpper r))) := by
    intro r hr
    have hregEq := getAll_region_eq (loadedState doc now) doc ps hd hp r hr
    rw [hp6] at hregEq
    simp only [Option.getD_some] at hregEq
    constructor
    · rintro ⟨resR, v, hres, hv, hx⟩
      rw [hregEq] at hres
      have hresEq : resR = _ := (Except.ok.inj hres).symm
      rw [hresEq] at hv
      have hv2 : (S, v) ∈ regionFilterEntries ps p6s
          ((loadedState doc now).serviceIpRangesMap) r := hv
      unfold regionFilterEntries at hv2
      rw [List.mem_filterMap] at hv2
      obtain ⟨kv, hkv, hstep⟩ := hv2
      cases hfc : filterCore ps p6s (jsUpper kv.1) r with
      | none =>
        rw [hfc] at hstep
        exact absurd hstep (by simp)
      | some fr =>
        simp only [hfc] at hstep
        by_cases hcnt : (decide (fr.countIpv4 > 0) || decide (fr.countIpv6 > 0)) = true
        · rw [if_pos hcnt] at hstep
          simp only [Option.some.injEq, Prod.mk.injEq] at hstep
          obtain ⟨hk1, hk2⟩ := hstep
          have hxm : x ∈ fr.ipv6_prefixes := by
            rw [← hk2] at hx
            exact hx
          have hfields := filterCore_eq_some hfc
          rw [hfields.2.1] at hxm
          rw [hk1] at hxm
          refine ⟨?_, hxm⟩
          rw [hsvc] at hkv
          rw [List.mem_map] at hkv
          obtain ⟨e0, he0, heq⟩ := hkv
          have : e0.1 = kv.1 := congrArg Prod.fst heq
          rw [mem_keysOf]
          exact ⟨e0, he0, by rw [this, hk1]⟩
        · rw [if_neg hcnt] at hstep
          exact absurd hstep (by simp)
    · rintro ⟨hS, hx⟩
      have hSk := hS
      rw [mem_keysOf] at hS
      obtain ⟨e0, he0, hkey⟩ := hS
      obtain ⟨fr, hfc, hf4, hf6, hpos⟩ := filterCore_of_mem6 ps p6s hx
      refine ⟨_, dropService fr, hregEq, ?_, ?_⟩
      · show (S, dropService fr) ∈ regionFilterEntries ps p6s
          ((loadedState doc now).serviceIpRangesMap) r
        unfold regionFilterEntries
        rw [List.mem_filterMap]
        refine ⟨(e0.1, mkServiceIpRanges e0.1 e0.2), ?_, ?_⟩
        · rw [hsvc, List.mem_map]
          exact ⟨e0, he0, rfl⟩
        · show (match filterCore ps p6s (jsUpper e0.1) r with
            | some fr =>
              if fr.countIpv4 > 0 || fr.countIpv6 > 0 then
                some (e0.1, dropService fr) else none
            | none => none) = some (S, dropService fr)
          rw [hkey]
          simp only [hfc]
          rw [if_pos (by simp [hpos])]
      · show x ∈ (dropService fr).ipv6_prefixes
        show x ∈ fr.ipv6_prefixes
        rw [hf6]
        exact hx
  constructor
  · constructor
    · intro hL
      obtain ⟨hSk, hx⟩ := hLHS4.mp hL
      rw [List.mem_map] at hx
      obtain ⟨p, hpf, hpx⟩ := hx
      rw [List.mem_filter] at hpf
      obtain ⟨hpin, hpserv⟩ := hpf
      have hps : p.service = S := beq_iff_eq.mp hpserv
      by_cases hr0 : p.region = ""
      · obtain ⟨v, hv, hxv⟩ := hL
        refine ⟨"", ?_, allNone, v, hemp, hv, hxv⟩
        rw [hregmem]
        exact Or.inl ⟨p, hpin, hr0⟩
      · refine ⟨p.region, ?_, ?_⟩
        · rw [hregmem]
          exact Or.inl ⟨p, hpin, rfl⟩
        · apply (hR4 p.region hr0).mpr
          refine ⟨hSk, ?_⟩
          rw [mem_filterIpv4]
          exact ⟨p, hpin, by rw [hps], rfl, hpx⟩
    · rintro ⟨r, hrmem, resR, v, hres, hv, hxv⟩
      by_cases hr0 : r = ""
      · subst hr0
        have hresEq : resR = allNone := by
          rw [hemp] at hres
          exact (Except.ok.inj hres).symm
        rw [hresEq] at hv
        exact ⟨v, hv, hxv⟩
      · obtain ⟨hSk, hx⟩ := (hR4 r hr0).mp ⟨resR, v, hres, hv, hxv⟩
        rw [mem_filterIpv4] at hx
        obtain ⟨p, hpin, hups, hupr, hpx⟩ := hx
        have hps : p.service = S :=
          hcase p.service S
            (Or.inl (by rw [List.mem_map]; exact ⟨p, hpin, rfl⟩))
            (hSrec hSk) hups
        apply hLHS4.mpr
        refine ⟨hSk, ?_⟩
        rw [List.mem_map]
        refine ⟨p, ?_, hpx⟩
        rw [List.mem_filter]
        exact ⟨hpin, beq_iff_eq.mpr hps⟩
  · constructor
    · intro hL
      obtain ⟨hSk, hx⟩ := hLHS6.mp hL
      rw [List.mem_map] at hx
      obtain ⟨q, hqf, hqx⟩ := hx
      rw [List.mem_filter] at hqf
      obtain ⟨hqin, hqserv⟩ := hqf
      have hqs : q.service = S := beq_iff_eq.mp hqserv
      by_cases hr0 : q.region = ""
      · obtain ⟨v, hv, hxv⟩ := hL
        refine ⟨"", ?_, allNone, v, hemp, hv, hxv⟩
        rw [hregmem]
        exact Or.inr ⟨q, hqin, hr0⟩
      · refine ⟨q.region, ?_, ?_⟩
        · rw [hregmem]
          exact Or.inr ⟨q, hqin, rfl⟩
        · apply (hR6 q.region hr0).mpr
          refine ⟨hSk, ?_⟩
          rw [mem_filterIpv6]
          exact ⟨q, hqin, by rw [hqs], rfl, hqx⟩
    · rintro ⟨r, hrmem, resR, v, hres, hv, hxv⟩
      by_cases hr0 : r = ""
      · subst hr0
        have hresEq : resR = allNone := by
          rw [hemp] at hres
          exact (Except.ok.inj hres).symm
        rw [hresEq] at hv
        exact ⟨v, hv, hxv⟩
      · obtain ⟨hSk, hx⟩ := (hR6 r hr0).mp ⟨resR, v, hres, hv, hxv⟩
        rw [mem_filterIpv6] at hx
        obtain ⟨q, hqin, hups, hupr, hqx⟩ := hx
        have hqs : q.service = S :=
          hcase q.service S
            (Or.inr (by rw [List.mem_map]; exact ⟨q, hqin, rfl⟩))
            (hSrec hSk) hups
        apply hLHS6.mpr
        refine ⟨hSk, ?_⟩
        rw [List.mem_map]
        refine ⟨q, ?_, hqx⟩
        rw [List.mem_filter]
        exact ⟨hqin, beq_iff_eq.mpr hqs⟩

/-- Closed instance of C8_region_union on a case-consistent dataset. -/
theorem C8_region_union_witness :
    (∃ v, (("EC2" : String), v) ∈ (⟨"s", "1", [("EC2", ⟨["10.0.0.0/8"], [], 1, 0⟩)]⟩
        : AllServicesIpRanges).services ∧ "10.0.0.0/8" ∈ v.ipv4_prefixes) ↔
      (∃ r ∈ (⟨["r1"], "s", "1"⟩ : RegionsListResponse).regions, ∃ resR v,
        getAllServiceIpRanges
          (loadedState ⟨"s", "", some [⟨"10.0.0.0/8", "r1", "EC2", ""⟩], some []⟩ 1)
          (some r) = .ok resR ∧
        ("EC2", v) ∈ resR.services ∧ "10.0.0.0/8" ∈ v.ipv4_prefixes) :=
  (C8_region_union ⟨"s", "", some [⟨"10.0.0.0/8", "r1", "EC2", ""⟩], some []⟩ 1
    [⟨"10.0.0.0/8", "r1", "EC2", ""⟩] [] rfl rfl
    (by
      intro s1 s2 h1 h2 _
      have e1 : s1 = "EC2" := by
        rcases h1 with h | h <;> simpa using h
      have e2 : s2 = "EC2" := by
        rcases h2 with h | h <;> simpa using h
      rw [e1, e2])
    "EC2" "10.0.0.0/8" ⟨["r1"], "s", "1"⟩
    ⟨"s", "1", [("EC2", ⟨["10.0.0.0/8"], [], 1, 0⟩)]⟩ (by rfl) (by rfl)).1

end AwsIpRanges
